import Mathlib

/-!
# SubSynth: voice allocation, MIDI dispatch, envelopes, oscillators and rendering

A shallow embedding of `Source/Envelope.h`, `Source/Oscillator.h`, `Source/Filter.h`,
`Source/NoiseGenerator.h`, `Source/Voice.h` and `Source/Synth.cpp`.

* `float` is modelled by an arbitrary linearly ordered field `F` (exact arithmetic); the
  definitions are computable and can be run at `F := ℚ`, and read over `ℝ` where a statement
  is about real numbers.
* `std::exp`, `std::exp2`, `std::sin` and the constant pi are taken from a record `MathFns F`.
* The JUCE classes the engine only uses (`juce::dsp::LadderFilter<float>`,
  `juce::LinearSmoothedValue<float>`, `juce::Random`) are taken from a record `Juce F`.
* `std::array<Voice, numVoices>` is a function `Fin numVoices → Voice`; a `for` loop over the
  voices is a recursion over the list of indices `0, 1, ..., 15`.
* The harmonic loop of `Oscillator::nextFourierSample` is the only unbounded loop; it runs on
  fuel, and the functions that reach it (`Voice::render`, `Synth::render`) return an `Option`.
-/

namespace SubSynth

/-! ## External collaborators -/

/-- The C math library functions called by the engine and `juce::MathConstants<float>::pi`. -/
structure MathFns (F : Type) where
  exp : F → F
  exp2 : F → F
  sin : F → F
  pi : F

/-- The JUCE classes used by the engine: their state types and the member functions called. -/
structure Juce (F : Type) where
  LadderFilter : Type
  filterReset : LadderFilter → LadderFilter
  setCutoffFrequencyHz : LadderFilter → F → LadderFilter
  setResonance : LadderFilter → F → LadderFilter
  updateSmoothers : LadderFilter → LadderFilter
  processSample : LadderFilter → F → F × LadderFilter
  LinearSmoothedValue : Type
  smootherReset : LinearSmoothedValue → F → F → LinearSmoothedValue
  getNextValue : LinearSmoothedValue → F × LinearSmoothedValue
  Random : Type
  setSeed : Random → Int → Random
  nextFloat : Random → F × Random

section Model

variable {F : Type} [LinearOrderedField F]

/-! ## Envelope.h -/

/-- The constant `SILENCE = 0.0001f`. -/
def SILENCE : F := 0.0001

/-- The class `Envelope`: public fields, then the private `target` and `a`. -/
structure Envelope (F : Type) where
  level : F
  attackA : F
  decayA : F
  sustainLevel : F
  releaseA : F
  target : F
  a : F

namespace Envelope

/-- The method `Envelope::reset`. -/
def reset (e : Envelope F) : Envelope F :=
  { e with level := 0, target := 0, a := 0 }

/-- The method `Envelope::nextValue`: the returned value and the new state. -/
def nextValue (e : Envelope F) : F × Envelope F :=
  let e1 : Envelope F := { e with level := e.a * (e.level - e.target) + e.target }
  let e2 : Envelope F :=
    if e1.level + e1.target > 3 then { e1 with target := e1.sustainLevel, a := e1.decayA }
    else e1
  (e2.level, e2)

/-- The method `Envelope::isActive`. -/
def isActive (e : Envelope F) : Bool := decide (e.level > SILENCE)

/-- The method `Envelope::isInAttack`. -/
def isInAttack (e : Envelope F) : Bool := decide (e.target ≥ 2)

/-- The method `Envelope::attack`. -/
def attack (e : Envelope F) : Envelope F :=
  { e with level := e.level + (SILENCE + SILENCE), target := 2, a := e.attackA }

/-- The method `Envelope::release`. -/
def release (e : Envelope F) : Envelope F :=
  { e with target := 0, a := e.releaseA }

/-- The state after `k` successive calls of `nextValue`. -/
def run : Nat → Envelope F → Envelope F
  | 0, e => e
  | k + 1, e => run k (nextValue e).2

/-- The value returned by call number `k + 1` of `nextValue`. -/
def returned (k : Nat) (e : Envelope F) : F := (nextValue (run k e)).1

end Envelope

/-! ## Oscillator.h -/

/-- The class `Oscillator`: public fields, then the private `inc` and `nyquist`. -/
structure Oscillator (F : Type) where
  amplitude : F
  sampleRate : F
  freq : F
  phase : F
  inc : F
  nyquist : F

namespace Oscillator

/-- The private method `Oscillator::updateIncrement`. -/
def updateIncrement (o : Oscillator F) : Oscillator F :=
  { o with inc := o.freq / o.sampleRate }

/-- The method `Oscillator::setFrequency`. -/
def setFrequency (o : Oscillator F) (freq : F) : Oscillator F :=
  updateIncrement { o with freq := freq }

/-- The method `Oscillator::setSampleRate`. -/
def setSampleRate (o : Oscillator F) (sampleRate : F) : Oscillator F :=
  { o with sampleRate := sampleRate, nyquist := sampleRate / 2 }

/-- The method `Oscillator::reset`. -/
def reset (o : Oscillator F) : Oscillator F :=
  { o with inc := 0, phase := 0, amplitude := 0 }

end Oscillator

/-! ## Voice.h -/

/-- The function `std::clamp(v, lo, hi)`. -/
def clamp (v lo hi : F) : F := if v < lo then lo else if hi < v then hi else v

/-- The class `Voice`. -/
structure Voice (F : Type) (J : Juce F) where
  note : Int
  velocity : Int
  frequency : F
  oscillatorA : Oscillator F
  oscillatorB : Oscillator F
  envelope : Envelope F
  panLeft : F
  panRight : F
  sawA : F
  sawB : F
  filter : J.LadderFilter
  cutoff : F
  filterMod : F
  filterQ : F
  pitchBend : F
  filterEnv : Envelope F
  filterEnvDepth : F

namespace Voice

variable {J : Juce F}

/-- The method `Voice::reset`. -/
def reset (v : Voice F J) : Voice F J :=
  { v with
    note := 0
    oscillatorA := v.oscillatorA.reset
    oscillatorB := v.oscillatorB.reset
    envelope := v.envelope.reset
    filter := J.filterReset v.filter
    filterEnv := v.filterEnv.reset
    panLeft := 0.707
    panRight := 0.707 }

/-- The method `Voice::updatePanning`. -/
def updatePanning (m : MathFns F) (v : Voice F J) : Voice F J :=
  let panning : F := clamp (((v.note : F) - 60) / 96) (-0.3) 0.3
  { v with
    panLeft := m.sin (m.pi / 4 * (1 - panning))
    panRight := m.sin (m.pi / 4 * (1 + panning)) }

end Voice

/-! ## Synth.h, Synth.cpp -/

/-- The constant `Synth::numVoices`. -/
abbrev numVoices : Nat := 16

/-- The class `Synth`: public fields, then the private ones. -/
structure Synth (F : Type) (J : Juce F) where
  noiseMix : F
  envAttack : F
  envDecay : F
  envSustain : F
  envRelease : F
  oscBTune : F
  masterTune : F
  outputLevelSmoother : J.LinearSmoothedValue
  oscMixSmoother : J.LinearSmoothedValue
  velocitySensitivity : F
  ignoreVelocity : Bool
  lfoInc : F
  vibrato : F
  pwmDepth : F
  filterKeyTracking : F
  filterQ : F
  filterLFODepth : F
  filterAttack : F
  filterDecay : F
  filterSustain : F
  filterRelease : F
  filterEnvDepth : F
  sampleRate : F
  noiseGenerator : J.Random
  pitchBend : F
  voices : Fin numVoices → Voice F J
  sustainPedalPressed : Bool
  lfoStep : Int
  lfo : F
  modWheel : F
  resonanceCtl : F
  filterCtl : F
  aftertouch : F
  filterSmoother : F

namespace Synth

variable {J : Juce F}

/-- A loop `for (int i = 0; i < numVoices; ++i) voices[i] = body(voices[i])` run over the
indices in `idx`. -/
def forEachVoice (body : Voice F J → Voice F J) :
    List (Fin numVoices) → (Fin numVoices → Voice F J) → (Fin numVoices → Voice F J)
  | [], voices => voices
  | i :: rest, voices => forEachVoice body rest (Function.update voices i (body (voices i)))

/-- The search loop of `Synth::noteOn` (lines 203-216), run over the remaining indices with
the current `voiceIndex` and `minAmp`; the `break` returns at once. -/
def noteOnScan (voices : Fin numVoices → Voice F J) (note : Int) :
    List (Fin numVoices) → Fin numVoices → F → Fin numVoices
  | [], voiceIndex, _ => voiceIndex
  | i :: rest, voiceIndex, minAmp =>
    if (!(voices i).envelope.isActive || decide ((voices i).note = note)) = true then i
    else if ((voices i).velocity : F) * (voices i).envelope.level < minAmp
        ∧ (!(voices i).envelope.isInAttack) = true then
      noteOnScan voices note rest i (((voices i).velocity : F) * (voices i).envelope.level)
    else noteOnScan voices note rest voiceIndex minAmp

/-- The value of `voiceIndex` after the search loop of `Synth::noteOn`. -/
def noteOnIndex (s : Synth F J) (note : Int) : Fin numVoices :=
  noteOnScan s.voices note (List.finRange numVoices) 0 9999

/-- The part of `Synth::noteOn` after the search loop (lines 218-244), on the chosen voice. -/
def noteOnVoice (m : MathFns F) (s : Synth F J) (note velocity : Int) (voice : Voice F J) :
    Voice F J :=
  let voice : Voice F J := { voice with note := note }
  let frequency : F := 440 * m.exp2 ((((note - 69 : Int) : F) + s.masterTune) / 12)
  let voice : Voice F J := { voice with frequency := frequency }
  let voice : Voice F J := { voice with cutoff := frequency / m.pi }
  let voice : Voice F J :=
    { voice with cutoff := voice.cutoff * m.exp (s.velocitySensitivity * ((velocity - 64 : Int) : F)) }
  let voice : Voice F J := { voice with velocity := velocity }
  let voice : Voice F J := voice.updatePanning m
  let voice : Voice F J :=
    { voice with oscillatorA := voice.oscillatorA.setSampleRate s.sampleRate }
  let voice : Voice F J :=
    { voice with oscillatorB := voice.oscillatorB.setSampleRate s.sampleRate }
  let voice : Voice F J := { voice with oscillatorA := voice.oscillatorA.reset }
  let voice : Voice F J := { voice with oscillatorB := voice.oscillatorB.reset }
  let voice : Voice F J :=
    { voice with
      envelope := Envelope.attack
        { voice.envelope with
          attackA := s.envAttack, decayA := s.envDecay
          sustainLevel := s.envSustain, releaseA := s.envRelease } }
  { voice with
    filterEnv := Envelope.attack
      { voice.filterEnv with
        attackA := s.filterAttack, decayA := s.filterDecay
        sustainLevel := s.filterSustain, releaseA := s.filterRelease } }

/-- The method `Synth::noteOn`. -/
def noteOn (m : MathFns F) (s : Synth F J) (note velocity : Int) : Synth F J :=
  let velocity : Int := if s.ignoreVelocity = true then 80 else velocity
  let voiceIndex : Fin numVoices := noteOnIndex s note
  { s with
    voices := Function.update s.voices voiceIndex
      (noteOnVoice m s note velocity (s.voices voiceIndex)) }

/-- The body of the loop of `Synth::noteOff`, on one voice. -/
def noteOffVoice (sustainPedalPressed : Bool) (note : Int) (voice : Voice F J) : Voice F J :=
  if voice.note = note then
    if sustainPedalPressed = true then { voice with note := -1 }
    else
      { voice with
        envelope := voice.envelope.release
        filterEnv := voice.filterEnv.release
        note := 0 }
  else voice

/-- The method `Synth::noteOff`. -/
def noteOff (s : Synth F J) (note : Int) : Synth F J :=
  { s with
    voices := forEachVoice (noteOffVoice s.sustainPedalPressed note)
      (List.finRange numVoices) s.voices }

/-- The method `Synth::controlChange`; the bytes are natural numbers below 256. -/
def controlChange (s : Synth F J) (data1 data2 : Nat) : Synth F J :=
  if data1 = 0x40 then
    let s : Synth F J := { s with sustainPedalPressed := decide (data2 ≥ 64) }
    if (!s.sustainPedalPressed) = true then noteOff s (-1) else s
  else if data1 = 0x01 then
    { s with modWheel := 0.000005 * (((data2 * data2 : Nat) : Int) : F) }
  else if data1 = 0x47 then
    { s with resonanceCtl := 154 / (((154 : Int) - (data2 : Int) : Int) : F) }
  else if data1 = 0x4A then
    { s with filterCtl := 0.02 * ((data2 : Int) : F) }
  else if data1 = 0x4B then
    { s with filterCtl := -0.03 * ((data2 : Int) : F) }
  else if data1 ≥ 0x78 then
    { s with
      voices := forEachVoice Voice.reset (List.finRange numVoices) s.voices
      sustainPedalPressed := false }
  else s

/-- The method `Synth::midiMessage`; the bytes are natural numbers below 256. -/
def midiMessage (m : MathFns F) (s : Synth F J) (data0 data1 data2 : Nat) : Synth F J :=
  if data0 &&& 0xF0 = 0x80 then noteOff s ((data1 &&& 0x7F : Nat) : Int)
  else if data0 &&& 0xF0 = 0x90 then
    let note : Nat := data1 &&& 0x7F
    let velocity : Nat := data2 &&& 0x7F
    if velocity > 0 then noteOn m s (note : Int) (velocity : Int)
    else noteOff s (note : Int)
  else if data0 &&& 0xF0 = 0xE0 then
    { s with
      pitchBend :=
        m.exp (0.000014102 * (((data1 : Int) + 128 * (data2 : Int) - 8192 : Int) : F)) }
  else if data0 &&& 0xF0 = 0xB0 then controlChange s data1 data2
  else if data0 &&& 0xF0 = 0xD0 then
    { s with aftertouch := 0.0001 * (((data1 * data1 : Nat) : Int) : F) }
  else s

end Synth

end Model

/-! ## Sample generation, modulation and rendering -/

section Rendering

variable {F : Type} [LinearOrderedField F]

namespace Oscillator

/-- The method `Oscillator::nextPolyBLEPSample`: the returned sample and the new state. -/
def nextPolyBLEPSample (o : Oscillator F) : F × Oscillator F :=
  let t : F := o.phase
  let value : F := 2 * t - 1
  let dt : F := o.inc
  let value : F :=
    if t < dt then
      let t : F := t / dt
      value - (t + t - t * t - 1)
    else if t > 1 - dt then
      let t : F := (t - 1) / dt
      value - (t * t + t + t + 1)
    else value
  let o1 : Oscillator F := { o with phase := o.phase + o.inc }
  let o2 : Oscillator F := if o1.phase ≥ 1 then { o1 with phase := o1.phase - 1 } else o1
  (o2.amplitude * value, o2)

/-- The method `Oscillator::nextNaiveSample`: the returned sample and the new state. -/
def nextNaiveSample (o : Oscillator F) : F × Oscillator F :=
  let value : F := 2 * o.phase - 1
  let o1 : Oscillator F := { o with phase := o.phase + o.inc }
  let o2 : Oscillator F := if o1.phase ≥ 1 then { o1 with phase := o1.phase - 1 } else o1
  (o2.amplitude * value, o2)

/-- The `while (h < nyquist)` loop of `Oscillator::nextFourierSample`, from the current
`value`, `h`, `i` and `m`; `TWO_PI` is twice pi. The loop may run at most `fuel` times:
`none` means it has not ended by then. -/
def fourierLoop (mf : MathFns F) (o : Oscillator F) : Nat → F → F → F → F → Option F
  | 0, value, h, _, _ => if h < o.nyquist then none else some value
  | fuel + 1, value, h, i, m =>
    if h < o.nyquist then
      fourierLoop mf o fuel (value + m * mf.sin (2 * mf.pi * o.phase * i) / i) (h + o.freq)
        (i + 1) (-m)
    else some value

/-- The method `Oscillator::nextFourierSample`: the returned sample and the new state, or
`none` when the harmonic loop has not ended within `fuel` rounds. -/
def nextFourierSample (mf : MathFns F) (fuel : Nat) (o : Oscillator F) :
    Option (F × Oscillator F) :=
  match fourierLoop mf o fuel 0 o.freq 1 0.63661977236 with
  | none => none
  | some value =>
    let o1 : Oscillator F := { o with phase := o.phase + o.inc }
    let o2 : Oscillator F := if o1.phase ≥ 1 then { o1 with phase := o1.phase - 1 } else o1
    some (o2.amplitude * value, o2)

end Oscillator

/-! ### Filter.h, NoiseGenerator.h -/

namespace Filter

variable {J : Juce F}

/-- The method `Filter::updateCoefficients`. -/
def updateCoefficients (f : J.LadderFilter) (cutoff Q : F) : J.LadderFilter :=
  J.setResonance (J.setCutoffFrequencyHz f cutoff) (clamp (Q / 30) 0 1)

/-- The method `Filter::render`: the output sample and the new filter state. -/
def render (f : J.LadderFilter) (x : F) : F × J.LadderFilter :=
  J.processSample (J.updateSmoothers f) x

end Filter

namespace NoiseGenerator

variable {J : Juce F}

/-- The method `NoiseGenerator::reset`. -/
def reset (r : J.Random) : J.Random := J.setSeed r 2304

/-- The method `NoiseGenerator::nextValue`: the value and the new generator state. -/
def nextValue (r : J.Random) : F × J.Random :=
  ((J.nextFloat r).1 * 2 - 1, (J.nextFloat r).2)

end NoiseGenerator

namespace Voice

variable {J : Juce F}

/-- The method `Voice::render`: the output sample and the new voice, or `none` when a harmonic
loop of `nextFourierSample` has not ended within `fuel` rounds. -/
def render (mf : MathFns F) (fuel : Nat) (v : Voice F J) (noise : F) : Option (F × Voice F J) :=
  let oscs : Option (Voice F J) :=
    if v.frequency < 40 then
      let a := v.oscillatorA.nextNaiveSample
      let b := v.oscillatorB.nextNaiveSample
      some { v with sawA := a.1, oscillatorA := a.2, sawB := b.1, oscillatorB := b.2 }
    else if v.frequency < 1000 then
      let a := v.oscillatorA.nextPolyBLEPSample
      let b := v.oscillatorB.nextPolyBLEPSample
      some { v with sawA := a.1, oscillatorA := a.2, sawB := b.1, oscillatorB := b.2 }
    else
      match v.oscillatorA.nextFourierSample mf fuel with
      | none => none
      | some a =>
        match v.oscillatorB.nextFourierSample mf fuel with
        | none => none
        | some b =>
          some { v with sawA := a.1, oscillatorA := a.2, sawB := b.1, oscillatorB := b.2 }
  match oscs with
  | none => none
  | some v1 =>
    let filtered := Filter.render v1.filter (v1.sawA + v1.sawB + noise * ((v1.velocity : F) / 127))
    let env := v1.envelope.nextValue
    some (filtered.1 * env.1, { v1 with filter := filtered.2, envelope := env.2 })

/-- The method `Voice::updateLFO`. -/
def updateLFO (mf : MathFns F) (v : Voice F J) : Voice F J :=
  let fenv := v.filterEnv.nextValue
  let v1 : Voice F J := { v with filterEnv := fenv.2 }
  let modulatedCutoff : F :=
    v1.cutoff * mf.exp (v1.filterMod + v1.filterEnvDepth * fenv.1) / v1.pitchBend
  let modulatedCutoff : F := clamp modulatedCutoff 20 20000
  { v1 with filter := Filter.updateCoefficients v1.filter modulatedCutoff v1.filterQ }

end Voice

namespace Synth

variable {J : Juce F}

/-- The constant `Synth::LFO_MAX`. -/
def LFO_MAX : Int := 32

/-- The method `Synth::reset`. -/
def reset (s : Synth F J) : Synth F J :=
  { s with
    voices := forEachVoice Voice.reset (List.finRange numVoices) s.voices
    noiseGenerator := NoiseGenerator.reset s.noiseGenerator
    pitchBend := 1
    sustainPedalPressed := false
    outputLevelSmoother := J.smootherReset s.outputLevelSmoother s.sampleRate 0.05
    oscMixSmoother := J.smootherReset s.oscMixSmoother s.sampleRate 0.0001
    lfo := 0
    lfoStep := 0
    modWheel := 0
    resonanceCtl := 1
    filterCtl := 0
    aftertouch := 0
    filterSmoother := 0 }

/-- The body of the voice loop of `Synth::updateLFO` (lines 290-297), on one voice. -/
def updateLFOVoice (mf : MathFns F) (vibratoMod pwm filterSmoother : F) (voice : Voice F J) :
    Voice F J :=
  if voice.envelope.isActive = true then
    let voice : Voice F J :=
      { voice with
        oscillatorA := voice.oscillatorA.setFrequency (voice.oscillatorA.freq * vibratoMod) }
    let voice : Voice F J :=
      { voice with oscillatorB := voice.oscillatorB.setFrequency (voice.oscillatorB.freq * pwm) }
    let voice : Voice F J := { voice with filterMod := filterSmoother }
    voice.updateLFO mf
  else voice

/-- The method `Synth::updateLFO`; `TWO_PI` is twice pi. -/
def updateLFO (mf : MathFns F) (s : Synth F J) : Synth F J :=
  let s : Synth F J := { s with lfoStep := s.lfoStep - 1 }
  if s.lfoStep ≤ 0 then
    let s : Synth F J := { s with lfoStep := LFO_MAX }
    let s : Synth F J := { s with lfo := s.lfo + s.lfoInc }
    let s : Synth F J := if s.lfo > mf.pi then { s with lfo := s.lfo - 2 * mf.pi } else s
    let sine : F := mf.sin s.lfo
    let vibratoMod : F := 1 + sine * (s.modWheel + s.vibrato)
    let pwm : F := 1 + sine * (s.modWheel + s.pwmDepth)
    let filterMod : F := s.filterKeyTracking + s.filterCtl + (s.filterLFODepth + s.aftertouch) * sine
    let s : Synth F J :=
      { s with filterSmoother := s.filterSmoother + 0.005 * (filterMod - s.filterSmoother) }
    { s with
      voices := forEachVoice (updateLFOVoice mf vibratoMod pwm s.filterSmoother)
        (List.finRange numVoices) s.voices }
  else s

/-- The body of the first loop of `Synth::render` (lines 69-83) at voice `i`. -/
def renderPrepareVoice (s : Synth F J) (i : Fin numVoices) : Synth F J :=
  let voice : Voice F J := s.voices i
  if voice.envelope.isActive = true then
    let voice : Voice F J :=
      { voice with oscillatorA := voice.oscillatorA.setFrequency (voice.frequency * s.pitchBend) }
    let voice : Voice F J :=
      { voice with
        oscillatorB := voice.oscillatorB.setFrequency (voice.oscillatorA.freq * s.oscBTune) }
    let voice : Voice F J :=
      { voice with
        oscillatorA :=
          { voice.oscillatorA with
            amplitude :=
              ((0.004 * (((voice.velocity + 64) * (voice.velocity + 64) : Int) : F) - 8) / 127)
                * 0.5 } }
    let mix := J.getNextValue s.oscMixSmoother
    let s : Synth F J := { s with oscMixSmoother := mix.2 }
    let voice : Voice F J :=
      { voice with
        oscillatorB := { voice.oscillatorB with amplitude := voice.oscillatorA.amplitude * mix.1 } }
    let voice : Voice F J := { voice with filterQ := s.filterQ + s.resonanceCtl }
    let voice : Voice F J := { voice with pitchBend := s.pitchBend }
    let voice : Voice F J := { voice with filterEnvDepth := s.filterEnvDepth }
    { s with voices := Function.update s.voices i voice }
  else s

/-- The first loop of `Synth::render` (lines 69-83) over the indices given. -/
def renderPrepare : List (Fin numVoices) → Synth F J → Synth F J
  | [], s => s
  | i :: rest, s => renderPrepare rest (renderPrepareVoice s i)

/-- The voice loop inside the sample loop of `Synth::render` (lines 91-101) over the indices
given, from the current synth state, `outputL` and `outputR`. -/
def renderVoices (mf : MathFns F) (fuel : Nat) :
    List (Fin numVoices) → Synth F J → F → F → Option (Synth F J × F × F)
  | [], s, outputL, outputR => some (s, outputL, outputR)
  | i :: rest, s, outputL, outputR =>
    if (s.voices i).envelope.isActive = true then
      let noise := NoiseGenerator.nextValue s.noiseGenerator
      let s : Synth F J := { s with noiseGenerator := noise.2 }
      match (s.voices i).render mf fuel (noise.1 * s.noiseMix) with
      | none => none
      | some out =>
        let s : Synth F J := { s with voices := Function.update s.voices i out.2 }
        renderVoices mf fuel rest s (outputL + out.1 * (s.voices i).panLeft)
          (outputR + out.1 * (s.voices i).panRight)
    else renderVoices mf fuel rest s outputL outputR

/-- The class `juce::AudioBuffer<float>` as far as `render` uses it: a sample for each channel
and position. -/
abbrev AudioBuffer (F : Type) : Type := Nat → Int → F

/-- The write of one output frame (lines 107-112 of `Synth::render`) at buffer position
`position`: both channels when `numChannels > 1`, else their mean on channel 0. -/
def writeFrame (buffer : AudioBuffer F) (position numChannels : Int) (outputL outputR : F) :
    AudioBuffer F :=
  if numChannels > 1 then
    Function.update (Function.update buffer 0 (Function.update (buffer 0) position outputL))
      1 (Function.update (buffer 1) position outputR)
  else Function.update buffer 0 (Function.update (buffer 0) position ((outputL + outputR) * 0.5))

/-- The sample loop of `Synth::render` (lines 85-113): `count` more samples from index
`sample`. -/
def renderSamples (mf : MathFns F) (fuel : Nat) (bufferOffset numChannels : Int) :
    Nat → Int → Synth F J → AudioBuffer F → Option (Synth F J × AudioBuffer F)
  | 0, _, s, buffer => some (s, buffer)
  | count + 1, sample, s, buffer =>
    let s : Synth F J := updateLFO mf s
    match renderVoices mf fuel (List.finRange numVoices) s 0 0 with
    | none => none
    | some (s, outputL, outputR) =>
      let level := J.getNextValue s.outputLevelSmoother
      let s : Synth F J := { s with outputLevelSmoother := level.2 }
      let outputL : F := outputL * level.1
      let outputR : F := outputR * level.1
      let buffer : AudioBuffer F :=
        writeFrame buffer (bufferOffset + sample) numChannels outputL outputR
      renderSamples mf fuel bufferOffset numChannels count (sample + 1) s buffer

/-- The body of the last loop of `Synth::render` (lines 114-121), on one voice. -/
def renderCleanupVoice (voice : Voice F J) : Voice F J :=
  if (!voice.envelope.isActive) = true then
    { voice with envelope := voice.envelope.reset, filter := J.filterReset voice.filter }
  else voice

/-- The method `Synth::render`: the new synth state and buffer, or `none` when a harmonic loop
of `nextFourierSample` has not ended within `fuel` rounds. -/
def render (mf : MathFns F) (fuel : Nat) (s : Synth F J) (buffer : AudioBuffer F)
    (bufferOffset sampleCount numChannels : Int) : Option (Synth F J × AudioBuffer F) :=
  let s : Synth F J := renderPrepare (List.finRange numVoices) s
  match renderSamples mf fuel bufferOffset numChannels sampleCount.toNat 0 s buffer with
  | none => none
  | some r =>
    some ({ r.1 with voices := forEachVoice renderCleanupVoice (List.finRange numVoices) r.1.voices },
      r.2)

end Synth

end Rendering

/-! ## Concrete inputs used to run the definitions -/

section Examples

variable (F : Type) [LinearOrderedField F]

/-- JUCE classes without state: the filter passes its input through, the smoothers stay at 1
and the noise source at 0. -/
def stubJuce : Juce F where
  LadderFilter := Unit
  filterReset := fun f => f
  setCutoffFrequencyHz := fun f _ => f
  setResonance := fun f _ => f
  updateSmoothers := fun f => f
  processSample := fun f x => (x, f)
  LinearSmoothedValue := Unit
  smootherReset := fun sm _ _ => sm
  getNextValue := fun sm => (1, sm)
  Random := Unit
  setSeed := fun r _ => r
  nextFloat := fun r => (0, r)

/-- Rational stand-ins for the math functions (first-order approximations). -/
def exampleMath : MathFns F where
  exp := fun x => 1 + x
  exp2 := fun x => 1 + x
  sin := fun x => x
  pi := 3

/-- An envelope with the given level and target and all rates `1/2`. -/
def exampleEnvelope (level target : F) : Envelope F where
  level := level
  attackA := 1 / 2
  decayA := 1 / 2
  sustainLevel := 1 / 2
  releaseA := 1 / 2
  target := target
  a := 1 / 2

/-- A voice with the given note, velocity and amplitude-envelope level and target. -/
def exampleVoice (note velocity : Int) (level target : F) : Voice F (stubJuce F) where
  note := note
  velocity := velocity
  frequency := 440
  oscillatorA := ⟨1 / 10, 44100, 440, 1 / 4, 1 / 100, 22050⟩
  oscillatorB := ⟨1 / 10, 44100, 440, 1 / 4, 1 / 100, 22050⟩
  envelope := exampleEnvelope F level target
  panLeft := 1 / 2
  panRight := 1 / 2
  sawA := 0
  sawB := 0
  filter := ()
  cutoff := 140
  filterMod := 0
  filterQ := 1
  pitchBend := 1
  filterEnv := exampleEnvelope F level target
  filterEnvDepth := 0

/-- A synth with the given sustain flag and voices. -/
def exampleSynth (sustainPedalPressed : Bool) (voices : Fin numVoices → Voice F (stubJuce F)) :
    Synth F (stubJuce F) where
  noiseMix := 0
  envAttack := 3 / 4
  envDecay := 3 / 4
  envSustain := 1 / 2
  envRelease := 3 / 4
  oscBTune := 1
  masterTune := 0
  outputLevelSmoother := ()
  oscMixSmoother := ()
  velocitySensitivity := 0
  ignoreVelocity := false
  lfoInc := 0
  vibrato := 0
  pwmDepth := 0
  filterKeyTracking := 0
  filterQ := 1
  filterLFODepth := 0
  filterAttack := 1 / 4
  filterDecay := 1 / 4
  filterSustain := 1 / 4
  filterRelease := 1 / 4
  filterEnvDepth := 0
  sampleRate := 44100
  noiseGenerator := ()
  pitchBend := 1
  voices := voices
  sustainPedalPressed := sustainPedalPressed
  lfoStep := 0
  lfo := 0
  modWheel := 0
  resonanceCtl := 1
  filterCtl := 0
  aftertouch := 0
  filterSmoother := 0

/-- All 16 voices sound notes 60..75 at velocity 100; voice 0 is in attack, the others decay
towards 1/2; voices 5 and 9 are at level 1/4, the others at 1/2. -/
def fullSynth : Synth F (stubJuce F) :=
  exampleSynth F false fun i =>
    exampleVoice F (60 + (i.val : Int)) 100 (if i.val = 5 ∨ i.val = 9 then 1 / 4 else 1 / 2)
      (if i.val = 0 then 2 else 1 / 2)

/-- Voice 0 is free (note 0, level 0); voices 1..15 sound notes 60..74 at level 1/2. -/
def freeSlotSynth : Synth F (stubJuce F) :=
  exampleSynth F false fun i =>
    if i.val = 0 then exampleVoice F 0 100 0 0
    else exampleVoice F (59 + (i.val : Int)) 100 (1 / 2) (1 / 2)

/-- All 16 voices sound notes 60..75 and all are still in attack (target 2). -/
def allAttackSynth : Synth F (stubJuce F) :=
  exampleSynth F false fun i => exampleVoice F (60 + (i.val : Int)) 100 (1 / 2) 2

/-- The pedal is held (or not); voice 2 sounds note 64, voice 7 is pedal-held (note -1), the
other voices sound notes 70..85. -/
def pedalSynth (sustainPedalPressed : Bool) : Synth F (stubJuce F) :=
  exampleSynth F sustainPedalPressed fun i =>
    if i.val = 2 then exampleVoice F 64 100 (1 / 2) (1 / 2)
    else if i.val = 7 then exampleVoice F (-1) 100 (1 / 2) (1 / 2)
    else exampleVoice F (70 + (i.val : Int)) 100 (1 / 2) (1 / 2)

end Examples

/-! ## Predicates used in the statements about the search loop of `noteOn` -/

section Predicates

variable {F : Type} [LinearOrderedField F] {J : Juce F}

namespace Synth

/-- The `break` condition of the search loop of `noteOn` at voice `i`. -/
def breaksAt (voices : Fin numVoices → Voice F J) (note : Int) (i : Fin numVoices) : Prop :=
  (voices i).envelope.isActive = false ∨ (voices i).note = note

/-- The product `velocity * envelope.level` the search loop compares. -/
def amp (voices : Fin numVoices → Voice F J) (i : Fin numVoices) : F :=
  ((voices i).velocity : F) * (voices i).envelope.level

/-- The voices the search loop may steal: those not in their attack phase. -/
def stealable (voices : Fin numVoices → Voice F J) (i : Fin numVoices) : Prop :=
  (voices i).envelope.isInAttack = false

end Synth

namespace Envelope

end Envelope

end Predicates

/-! ## Repeated sample generation and further concrete inputs -/

section Runs

variable {F : Type} [LinearOrderedField F]

namespace Oscillator

end Oscillator

end Runs

section Examples2

variable (F : Type) [LinearOrderedField F]

end Examples2

section Runs2

variable {F : Type} [LinearOrderedField F] {J : Juce F}

namespace Synth

/-- Whether the next call of `updateLFO` advances the LFO: the test `--lfoStep <= 0`. -/
def lfoTicks (s : Synth F J) : Bool := decide (s.lfoStep - 1 ≤ 0)

/-- The state after `n` successive calls of `updateLFO`. -/
def runLFO (mf : MathFns F) : Nat → Synth F J → Synth F J
  | 0, s => s
  | n + 1, s => runLFO mf n (updateLFO mf s)

end Synth

end Runs2

section Examples3

variable (F : Type) [LinearOrderedField F]

/-- A voice whose note has died away: envelopes cleared as `render` leaves them, oscillators
still at their last phase 1/4 and amplitude 1/10. -/
def idleVoice : Voice F (stubJuce F) :=
  { exampleVoice F 0 100 0 0 with
    envelope := (exampleEnvelope F 0 0).reset }

/-- A synth all of whose voices have died away. -/
def idleSynth : Synth F (stubJuce F) := exampleSynth F false fun _ => idleVoice F

/-- A buffer holding 1 everywhere. -/
def onesBuffer : Synth.AudioBuffer F := fun _ _ => 1

end Examples3

/-! ## Proofs: loops over the voices -/

namespace Synth

section Loops

variable {F : Type} {J : Juce F}

/-- A loop over distinct indices applies the body to exactly the voices it visits. -/
theorem forEachVoice_apply (body : Voice F J → Voice F J) (l : List (Fin numVoices))
    (hl : l.Nodup) (voices : Fin numVoices → Voice F J) (j : Fin numVoices) :
    forEachVoice body l voices j = if j ∈ l then body (voices j) else voices j := by
  induction l generalizing voices with
  | nil => simp [forEachVoice]
  | cons i rest ih =>
    have hi : i ∉ rest := (List.nodup_cons.mp hl).1
    rw [forEachVoice, ih (List.nodup_cons.mp hl).2]
    by_cases hji : j = i
    · subst hji
      simp [hi]
    · by_cases hjr : j ∈ rest
      · simp [hjr, hji, Function.update_noteq hji]
      · simp [hjr, hji, Function.update_noteq hji]

/-- A loop over all 16 indices applies the body to every voice. -/
theorem forEachVoice_finRange (body : Voice F J → Voice F J)
    (voices : Fin numVoices → Voice F J) (j : Fin numVoices) :
    forEachVoice body (List.finRange numVoices) voices j = body (voices j) := by
  rw [forEachVoice_apply body _ (List.nodup_finRange _)]
  simp

end Loops

section VoiceSearch

variable {F : Type} [LinearOrderedField F] {J : Juce F}

/-- If some remaining voice meets the `break` condition, the search ends at the first such. -/
theorem noteOnScan_break (voices : Fin numVoices → Voice F J) (note : Int)
    (l : List (Fin numVoices)) (hl : l.Pairwise (· < ·)) (voiceIndex : Fin numVoices)
    (minAmp : F) (hex : ∃ i ∈ l, breaksAt voices note i) :
    noteOnScan voices note l voiceIndex minAmp ∈ l
      ∧ breaksAt voices note (noteOnScan voices note l voiceIndex minAmp)
      ∧ ∀ j ∈ l, j < noteOnScan voices note l voiceIndex minAmp → ¬ breaksAt voices note j := by
  induction l generalizing voiceIndex minAmp with
  | nil => simp at hex
  | cons i rest ih =>
    have hlt : ∀ j ∈ rest, i < j := (List.pairwise_cons.mp hl).1
    by_cases hb : breaksAt voices note i
    · have hcond : (!(voices i).envelope.isActive || decide ((voices i).note = note)) = true := by
        rcases hb with h | h <;> simp [h]
      rw [noteOnScan, if_pos hcond]
      refine ⟨List.mem_cons_self _ _, hb, ?_⟩
      intro j hj hji
      rcases List.mem_cons.mp hj with h | h
      · exact absurd hji (by rw [h]; exact lt_irrefl _)
      · exact absurd hji (not_lt.mpr (le_of_lt (hlt j h)))
    · have hcond : ¬ (!(voices i).envelope.isActive || decide ((voices i).note = note)) = true := by
        intro h
        apply hb
        simp only [Bool.or_eq_true, Bool.not_eq_true', decide_eq_true_eq] at h
        exact h
      have hex2 : ∃ k ∈ rest, breaksAt voices note k := by
        obtain ⟨k, hk, hbk⟩ := hex
        rcases List.mem_cons.mp hk with h | h
        · exact absurd (h ▸ hbk) hb
        · exact ⟨k, h, hbk⟩
      have key : ∀ (vi : Fin numVoices) (ma : F),
          noteOnScan voices note rest vi ma ∈ i :: rest
          ∧ breaksAt voices note (noteOnScan voices note rest vi ma)
          ∧ ∀ j ∈ i :: rest, j < noteOnScan voices note rest vi ma → ¬ breaksAt voices note j := by
        intro vi ma
        obtain ⟨h1, h2, h3⟩ := ih (List.pairwise_cons.mp hl).2 vi ma hex2
        refine ⟨List.mem_cons_of_mem _ h1, h2, ?_⟩
        intro j hj hjr
        rcases List.mem_cons.mp hj with h | h
        · rw [h]; exact hb
        · exact h3 j h hjr
      rw [noteOnScan, if_neg hcond]
      split
      · exact key _ _
      · exact key _ _

/-- Without a `break`, the search either keeps the incoming `voiceIndex` (no stealable voice
below `minAmp`) or ends on the first stealable voice of least product, below `minAmp`. -/
theorem noteOnScan_min (voices : Fin numVoices → Voice F J) (note : Int)
    (l : List (Fin numVoices)) (hl : l.Pairwise (· < ·)) (voiceIndex : Fin numVoices)
    (minAmp : F) (hnb : ∀ i ∈ l, ¬ breaksAt voices note i) :
    (noteOnScan voices note l voiceIndex minAmp = voiceIndex
        ∧ ∀ j ∈ l, stealable voices j → minAmp ≤ amp voices j)
      ∨ (noteOnScan voices note l voiceIndex minAmp ∈ l
        ∧ stealable voices (noteOnScan voices note l voiceIndex minAmp)
        ∧ amp voices (noteOnScan voices note l voiceIndex minAmp) < minAmp
        ∧ (∀ j ∈ l, stealable voices j →
            amp voices (noteOnScan voices note l voiceIndex minAmp) ≤ amp voices j)
        ∧ (∀ j ∈ l, stealable voices j →
            amp voices j = amp voices (noteOnScan voices note l voiceIndex minAmp) →
            noteOnScan voices note l voiceIndex minAmp ≤ j)) := by
  induction l generalizing voiceIndex minAmp with
  | nil => left; simp [noteOnScan]
  | cons i rest ih =>
    have hlt : ∀ j ∈ rest, i < j := (List.pairwise_cons.mp hl).1
    have hb : ¬ breaksAt voices note i := hnb i (List.mem_cons_self _ _)
    have hcond : ¬ (!(voices i).envelope.isActive || decide ((voices i).note = note)) = true := by
      intro h
      apply hb
      simp only [Bool.or_eq_true, Bool.not_eq_true', decide_eq_true_eq] at h
      exact h
    have hnb2 : ∀ k ∈ rest, ¬ breaksAt voices note k :=
      fun k hk => hnb k (List.mem_cons_of_mem _ hk)
    rw [noteOnScan, if_neg hcond]
    by_cases hs : ((voices i).velocity : F) * (voices i).envelope.level < minAmp
        ∧ (!(voices i).envelope.isInAttack) = true
    · rw [if_pos hs]
      have hsi : stealable voices i := by
        have := hs.2
        simpa [stealable] using this
      have hai : amp voices i < minAmp := hs.1
      right
      have hfold : ((voices i).velocity : F) * (voices i).envelope.level = amp voices i := rfl
      rw [hfold]
      rcases ih (List.pairwise_cons.mp hl).2 i (amp voices i) hnb2 with ⟨h1, h2⟩ | ⟨h1, h2, h3, h4, h5⟩
      · rw [h1]
        refine ⟨List.mem_cons_self _ _, hsi, hai, ?_, ?_⟩
        · intro j hj hsj
          rcases List.mem_cons.mp hj with h | h
          · rw [h]
          · exact h2 j h hsj
        · intro j hj _ _
          rcases List.mem_cons.mp hj with h | h
          · rw [h]
          · exact le_of_lt (hlt j h)
      · refine ⟨List.mem_cons_of_mem _ h1, h2, lt_trans h3 hai, ?_, ?_⟩
        · intro j hj hsj
          rcases List.mem_cons.mp hj with h | h
          · rw [h]; exact le_of_lt h3
          · exact h4 j h hsj
        · intro j hj hsj heq
          rcases List.mem_cons.mp hj with h | h
          · rw [h] at heq; exact absurd heq (ne_of_gt h3)
          · exact h5 j h hsj heq
    · rw [if_neg hs]
      have hge : stealable voices i → minAmp ≤ amp voices i := by
        intro hsi
        by_contra hlt2
        apply hs
        refine ⟨not_le.mp hlt2, ?_⟩
        simpa [stealable] using hsi
      rcases ih (List.pairwise_cons.mp hl).2 voiceIndex minAmp hnb2 with ⟨h1, h2⟩ | ⟨h1, h2, h3, h4, h5⟩
      · left
        refine ⟨h1, ?_⟩
        intro j hj hsj
        rcases List.mem_cons.mp hj with h | h
        · rw [h]; exact hge (h ▸ hsj)
        · exact h2 j h hsj
      · right
        refine ⟨List.mem_cons_of_mem _ h1, h2, h3, ?_, ?_⟩
        · intro j hj hsj
          rcases List.mem_cons.mp hj with h | h
          · rw [h]; exact le_of_lt (lt_of_lt_of_le h3 (hge (h ▸ hsj)))
          · exact h4 j h hsj
        · intro j hj hsj heq
          rcases List.mem_cons.mp hj with h | h
          · rw [h] at heq hsj
            exact absurd heq (ne_of_gt (lt_of_lt_of_le h3 (hge hsj)))
          · exact h5 j h hsj heq

/-- The indices `0, ..., 15` are visited in increasing order. -/
theorem finRange_pairwise_lt : (List.finRange numVoices).Pairwise (· < ·) :=
  List.pairwise_lt_finRange numVoices

/-- With a voice that is free or holds the note, `noteOn` picks the first such voice. -/
theorem noteOnIndex_of_break (s : Synth F J) (note : Int)
    (hex : ∃ i, breaksAt s.voices note i) :
    breaksAt s.voices note (noteOnIndex s note)
      ∧ ∀ j, j < noteOnIndex s note → ¬ breaksAt s.voices note j := by
  obtain ⟨i, hi⟩ := hex
  obtain ⟨_, h2, h3⟩ := noteOnScan_break s.voices note (List.finRange numVoices)
    finRange_pairwise_lt 0 9999 ⟨i, List.mem_finRange i, hi⟩
  exact ⟨h2, fun j hj => h3 j (List.mem_finRange j) hj⟩

/-- With all voices active on other notes, `noteOn` picks voice 0 (nothing stealable below
9999) or the first stealable voice of least product. -/
theorem noteOnIndex_of_noBreak (s : Synth F J) (note : Int)
    (hnb : ∀ i, ¬ breaksAt s.voices note i) :
    (noteOnIndex s note = 0 ∧ ∀ j, stealable s.voices j → 9999 ≤ amp s.voices j)
      ∨ (stealable s.voices (noteOnIndex s note)
        ∧ amp s.voices (noteOnIndex s note) < 9999
        ∧ (∀ j, stealable s.voices j → amp s.voices (noteOnIndex s note) ≤ amp s.voices j)
        ∧ (∀ j, stealable s.voices j → amp s.voices j = amp s.voices (noteOnIndex s note) →
            noteOnIndex s note ≤ j)) := by
  rcases noteOnScan_min s.voices note (List.finRange numVoices) finRange_pairwise_lt 0 9999
    (fun i _ => hnb i) with ⟨h1, h2⟩ | ⟨_, h2, h3, h4, h5⟩
  · exact Or.inl ⟨h1, fun j hj => h2 j (List.mem_finRange j) hj⟩
  · exact Or.inr ⟨h2, h3, fun j hj => h4 j (List.mem_finRange j) hj,
      fun j hj he => h5 j (List.mem_finRange j) hj he⟩

/-- The method `noteOn` leaves the voices other than the chosen one unchanged. -/
theorem noteOn_voices_other (m : MathFns F) (s : Synth F J) (note velocity : Int)
    (j : Fin numVoices) (hj : j ≠ noteOnIndex s note) :
    (noteOn m s note velocity).voices j = s.voices j := by
  simp [noteOn, Function.update_noteq hj]

/-- The method `noteOn` rewrites the chosen voice by `noteOnVoice`. -/
theorem noteOn_voices_chosen (m : MathFns F) (s : Synth F J) (note velocity : Int) :
    (noteOn m s note velocity).voices (noteOnIndex s note)
      = noteOnVoice m s note (if s.ignoreVelocity = true then 80 else velocity)
          (s.voices (noteOnIndex s note)) := by
  simp [noteOn]

/-- The chosen voice holds the incoming note afterwards. -/
theorem noteOnVoice_note (m : MathFns F) (s : Synth F J) (note velocity : Int)
    (voice : Voice F J) : (noteOnVoice m s note velocity voice).note = note := rfl

/-- No `break` at voice `i` means it is active and holds another note. -/
theorem not_breaksAt_iff (voices : Fin numVoices → Voice F J) (note : Int) (i : Fin numVoices) :
    ¬ breaksAt voices note i ↔ (voices i).envelope.isActive = true ∧ (voices i).note ≠ note := by
  simp [breaksAt, not_or]

/-- Every voice of `fullSynth` is active. -/
theorem fullSynth_active (i : Fin numVoices) :
    ((fullSynth ℚ).voices i).envelope.isActive = true := by
  simp only [fullSynth, exampleSynth, exampleVoice, exampleEnvelope, Envelope.isActive, SILENCE,
    decide_eq_true_eq]
  split <;> norm_num

/-- No voice of `fullSynth` holds note 90. -/
theorem fullSynth_note (i : Fin numVoices) : ((fullSynth ℚ).voices i).note ≠ 90 := by
  have := i.isLt
  simp only [fullSynth, exampleSynth, exampleVoice, numVoices] at this ⊢
  omega

/-- Every amplitude-envelope level of `fullSynth` is non-negative. -/
theorem fullSynth_level (i : Fin numVoices) : 0 ≤ ((fullSynth ℚ).voices i).envelope.level := by
  simp only [fullSynth, exampleSynth, exampleVoice, exampleEnvelope]
  split <;> norm_num

/-- C1: when all 16 voices are active, none holds the incoming note, some voice is not in attack,
velocities are in 0..127 and levels in [0, 2], `noteOn` gives the note to the voice with the
least `velocity * envelope.level` among the voices not in attack, the lowest index among equal
minima, and changes no other voice. -/
theorem noteOn_steals_quietest (m : MathFns F) (s : Synth F J) (n v : Int)
    (hactive : ∀ i, (s.voices i).envelope.isActive = true)
    (hnote : ∀ i, (s.voices i).note ≠ n)
    (hex : ∃ i, (s.voices i).envelope.isInAttack = false)
    (hvel : ∀ i, 0 ≤ (s.voices i).velocity ∧ (s.voices i).velocity ≤ 127)
    (hlev : ∀ i, 0 ≤ (s.voices i).envelope.level ∧ (s.voices i).envelope.level ≤ 2) :
    ((noteOn m s n v).voices (noteOnIndex s n)).note = n
      ∧ (∀ j, j ≠ noteOnIndex s n → (noteOn m s n v).voices j = s.voices j)
      ∧ (s.voices (noteOnIndex s n)).envelope.isInAttack = false
      ∧ (∀ j, (s.voices j).envelope.isInAttack = false →
          ((s.voices (noteOnIndex s n)).velocity : F) * (s.voices (noteOnIndex s n)).envelope.level
            ≤ ((s.voices j).velocity : F) * (s.voices j).envelope.level)
      ∧ (∀ j, (s.voices j).envelope.isInAttack = false →
          ((s.voices j).velocity : F) * (s.voices j).envelope.level
            = ((s.voices (noteOnIndex s n)).velocity : F)
                * (s.voices (noteOnIndex s n)).envelope.level →
          noteOnIndex s n ≤ j) := by
  have hnb : ∀ i, ¬ breaksAt s.voices n i :=
    fun i => (not_breaksAt_iff s.voices n i).mpr ⟨hactive i, hnote i⟩
  refine ⟨by rw [noteOn_voices_chosen]; rfl, fun j hj => noteOn_voices_other m s n v j hj, ?_⟩
  rcases noteOnIndex_of_noBreak s n hnb with ⟨_, h2⟩ | ⟨h1, _, h3, h4⟩
  · exfalso
    obtain ⟨i, hi⟩ := hex
    have h9 : (9999 : F) ≤ amp s.voices i := h2 i hi
    have hv : ((s.voices i).velocity : F) ≤ 127 := by exact_mod_cast (hvel i).2
    have hv0 : (0 : F) ≤ ((s.voices i).velocity : F) := by exact_mod_cast (hvel i).1
    have hbound : amp s.voices i ≤ 127 * 2 := mul_le_mul hv (hlev i).2 (hlev i).1 (by norm_num)
    linarith
  · exact ⟨h1, h3, h4⟩

/-! ## Proofs: retrigger and stealing -/

/-- C1 at `fullSynth`: voices 5 and 9 share the least product, and note 90 goes to voice 5. -/
theorem noteOn_steals_quietest_witness :
    (∀ i, ((fullSynth ℚ).voices i).envelope.isActive = true)
      ∧ (∀ i, ((fullSynth ℚ).voices i).note ≠ 90)
      ∧ ((fullSynth ℚ).voices 5).envelope.isInAttack = false
      ∧ noteOnIndex (fullSynth ℚ) 90 = 5 := by
  have e5 : ((5 : Fin numVoices) : Nat) = 5 := rfl
  have h5 : ((fullSynth ℚ).voices 5).envelope.isInAttack = false := by
    simp [fullSynth, exampleSynth, exampleVoice, exampleEnvelope, Envelope.isInAttack, e5]
    norm_num
  refine ⟨fullSynth_active, fullSynth_note, h5, ?_⟩
  have h := noteOn_steals_quietest (exampleMath ℚ) (fullSynth ℚ) 90 100 fullSynth_active
    fullSynth_note ⟨5, h5⟩
    (fun i => by simp [fullSynth, exampleSynth, exampleVoice])
    (fun i => by
      simp only [fullSynth, exampleSynth, exampleVoice, exampleEnvelope]
      split <;> norm_num)
  have hmin5 := h.2.2.2.1 5 h5
  have htie5 := h.2.2.2.2 5 h5
  clear h
  generalize noteOnIndex (fullSynth ℚ) 90 = r at hmin5 htie5
  revert hmin5 htie5
  simp only [fullSynth, exampleSynth, exampleVoice, exampleEnvelope, e5]
  unfold numVoices at *
  fin_cases r <;> norm_num <;> decide

/-- In `freeSlotSynth` the search for note 60 stops at the free voice 0. -/
theorem freeSlotSynth_index : noteOnIndex (freeSlotSynth ℚ) 60 = 0 := by
  have hb : breaksAt (freeSlotSynth ℚ).voices 60 0 := by
    left
    simp [freeSlotSynth, exampleSynth, exampleVoice, exampleEnvelope, Envelope.isActive, SILENCE]
    norm_num
  have h := (noteOnIndex_of_break (freeSlotSynth ℚ) 60 ⟨0, hb⟩).2 0
  by_contra hne
  exact h (Fin.pos_iff_ne_zero.mpr hne) hb

/-- C2 (as stated, refuted): in `freeSlotSynth` voice 1 is active and holds note 60, yet
`noteOn(60, 100)` gives the note to the free voice 0, which did not hold 60, and changes it. -/
theorem retrigger_refuted_freeSlot :
    (((freeSlotSynth ℚ).voices 1).envelope.isActive = true ∧ ((freeSlotSynth ℚ).voices 1).note = 60)
      ∧ ((freeSlotSynth ℚ).voices (noteOnIndex (freeSlotSynth ℚ) 60)).note ≠ 60
      ∧ ((noteOn (exampleMath ℚ) (freeSlotSynth ℚ) 60 100).voices 0).note = 60
      ∧ (noteOn (exampleMath ℚ) (freeSlotSynth ℚ) 60 100).voices 1 = (freeSlotSynth ℚ).voices 1 := by
  have e1 : ((1 : Fin numVoices) : Nat) = 1 := rfl
  refine ⟨⟨?_, ?_⟩, ?_, ?_, ?_⟩
  · simp [freeSlotSynth, exampleSynth, exampleVoice, exampleEnvelope, Envelope.isActive, SILENCE, e1]
    norm_num
  · simp [freeSlotSynth, exampleSynth, exampleVoice, e1]
  · rw [freeSlotSynth_index]
    simp [freeSlotSynth, exampleSynth, exampleVoice]
  · have h := noteOn_voices_chosen (exampleMath ℚ) (freeSlotSynth ℚ) 60 100
    rw [freeSlotSynth_index] at h
    rw [h]
    rfl
  · apply noteOn_voices_other
    rw [freeSlotSynth_index]
    decide

/-- C2 (amended): when some active voice holds the incoming note `n`, `noteOn` gives the note to
the lowest-indexed voice that is inactive or already holds `n` and changes no other voice; so
when every inactive voice comes after some holder of `n` (in particular when all 16 voices are
active), the voice retriggered is one that already held `n`. -/
theorem noteOn_retrigger (m : MathFns F) (s : Synth F J) (n v : Int)
    (hex : ∃ i, (s.voices i).envelope.isActive = true ∧ (s.voices i).note = n) :
    ((s.voices (noteOnIndex s n)).envelope.isActive = false ∨ (s.voices (noteOnIndex s n)).note = n)
      ∧ (∀ j, j < noteOnIndex s n →
          (s.voices j).envelope.isActive = true ∧ (s.voices j).note ≠ n)
      ∧ ((noteOn m s n v).voices (noteOnIndex s n)).note = n
      ∧ (∀ j, j ≠ noteOnIndex s n → (noteOn m s n v).voices j = s.voices j)
      ∧ ((∀ j, (s.voices j).envelope.isActive = false → ∃ i, i < j ∧ (s.voices i).note = n) →
          (s.voices (noteOnIndex s n)).note = n) := by
  obtain ⟨i, _, hi⟩ := hex
  obtain ⟨h1, h2⟩ := noteOnIndex_of_break s n ⟨i, Or.inr hi⟩
  refine ⟨h1, fun j hj => (not_breaksAt_iff s.voices n j).mp (h2 j hj),
    by rw [noteOn_voices_chosen]; rfl, fun j hj => noteOn_voices_other m s n v j hj, ?_⟩
  intro hall
  rcases h1 with h | h
  · obtain ⟨i, hlt, hni⟩ := hall _ h
    exact absurd hni ((not_breaksAt_iff s.voices n i).mp (h2 i hlt)).2
  · exact h

/-- C2 (amended) at `fullSynth`: voice 3 holds note 63 and `noteOn(63, 100)` retriggers a
holder of 63. -/
theorem noteOn_retrigger_witness :
    (((fullSynth ℚ).voices 3).envelope.isActive = true ∧ ((fullSynth ℚ).voices 3).note = 63)
      ∧ ((fullSynth ℚ).voices (noteOnIndex (fullSynth ℚ) 63)).note = 63
      ∧ ((noteOn (exampleMath ℚ) (fullSynth ℚ) 63 100).voices
          (noteOnIndex (fullSynth ℚ) 63)).note = 63 := by
  have h3 : ((fullSynth ℚ).voices 3).envelope.isActive = true
      ∧ ((fullSynth ℚ).voices 3).note = 63 := ⟨fullSynth_active 3, rfl⟩
  have h := noteOn_retrigger (exampleMath ℚ) (fullSynth ℚ) 63 100 ⟨3, h3⟩
  exact ⟨h3, h.2.2.2.2 (fun j hj => absurd (fullSynth_active j) (by rw [hj]; decide)),
    h.2.2.1⟩

/-- C3 (as stated, refuted): in `allAttackSynth` all 16 voices are active, none holds note 90,
and `noteOn(90, 100)` reassigns voice 0, which is in its attack phase. -/
theorem attack_stolen_allAttack :
    (∀ i, ((allAttackSynth ℚ).voices i).envelope.isActive = true)
      ∧ (∀ i, ((allAttackSynth ℚ).voices i).note ≠ 90)
      ∧ noteOnIndex (allAttackSynth ℚ) 90 = 0
      ∧ ((allAttackSynth ℚ).voices (noteOnIndex (allAttackSynth ℚ) 90)).envelope.isInAttack = true
      ∧ ((noteOn (exampleMath ℚ) (allAttackSynth ℚ) 90 100).voices 0).note = 90 := by
  have hact : ∀ i, ((allAttackSynth ℚ).voices i).envelope.isActive = true := by
    intro i
    simp only [allAttackSynth, exampleSynth, exampleVoice, exampleEnvelope, Envelope.isActive,
      SILENCE, decide_eq_true_eq]
    norm_num
  have hnote : ∀ i, ((allAttackSynth ℚ).voices i).note ≠ 90 := by
    intro i
    have := i.isLt
    simp only [allAttackSynth, exampleSynth, exampleVoice, numVoices] at this ⊢
    omega
  have hatt : ∀ i, ((allAttackSynth ℚ).voices i).envelope.isInAttack = true := by
    intro i
    simp [allAttackSynth, exampleSynth, exampleVoice, exampleEnvelope, Envelope.isInAttack]
  have hidx : noteOnIndex (allAttackSynth ℚ) 90 = 0 := by
    rcases noteOnIndex_of_noBreak (allAttackSynth ℚ) 90
      (fun i => (not_breaksAt_iff _ 90 i).mpr ⟨hact i, hnote i⟩) with h | h
    · exact h.1
    · have h1 : ((allAttackSynth ℚ).voices (noteOnIndex (allAttackSynth ℚ) 90)).envelope.isInAttack
          = false := h.1
      rw [hatt] at h1
      exact absurd h1 (by decide)
  refine ⟨hact, hnote, hidx, hatt _, ?_⟩
  have h := noteOn_voices_chosen (exampleMath ℚ) (allAttackSynth ℚ) 90 100
  rw [hidx] at h
  rw [h]
  rfl

/-- C3 (amended): when all 16 voices are active, none holds the incoming note, and some voice
that is not in attack has `velocity * envelope.level` below 9999 (the initial `minAmp`), the
voice `noteOn` reassigns is not in its attack phase before the call; when no such voice exists
(for instance when every voice is in attack) the voice reassigned is voice 0. -/
theorem noteOn_spares_attack (s : Synth F J) (n : Int)
    (hactive : ∀ i, (s.voices i).envelope.isActive = true)
    (hnote : ∀ i, (s.voices i).note ≠ n) :
    ((∃ i, (s.voices i).envelope.isInAttack = false
          ∧ ((s.voices i).velocity : F) * (s.voices i).envelope.level < 9999) →
        (s.voices (noteOnIndex s n)).envelope.isInAttack = false)
      ∧ ((∀ i, (s.voices i).envelope.isInAttack = false →
            9999 ≤ ((s.voices i).velocity : F) * (s.voices i).envelope.level) →
        noteOnIndex s n = 0) := by
  have hnb : ∀ i, ¬ breaksAt s.voices n i :=
    fun i => (not_breaksAt_iff s.voices n i).mpr ⟨hactive i, hnote i⟩
  constructor
  · rintro ⟨i, hi, hlt⟩
    rcases noteOnIndex_of_noBreak s n hnb with ⟨_, h2⟩ | ⟨h1, _⟩
    · exact absurd hlt (not_lt.mpr (h2 i hi))
    · exact h1
  · intro hall
    rcases noteOnIndex_of_noBreak s n hnb with ⟨h1, _⟩ | ⟨h1, h2, _⟩
    · exact h1
    · exact absurd h2 (not_lt.mpr (hall _ h1))

/-- C3 (amended) at `fullSynth`: voice 0 is in attack, voice 1 is not, and the voice taken for
note 90 is not in attack. -/
theorem noteOn_spares_attack_witness :
    (∀ i, ((fullSynth ℚ).voices i).envelope.isActive = true)
      ∧ (∀ i, ((fullSynth ℚ).voices i).note ≠ 90)
      ∧ ((fullSynth ℚ).voices 0).envelope.isInAttack = true
      ∧ ((fullSynth ℚ).voices (noteOnIndex (fullSynth ℚ) 90)).envelope.isInAttack = false := by
  have e1 : ((1 : Fin numVoices) : Nat) = 1 := rfl
  refine ⟨fullSynth_active, fullSynth_note, ?_, ?_⟩
  · simp [fullSynth, exampleSynth, exampleVoice, exampleEnvelope, Envelope.isInAttack]
  · refine (noteOn_spares_attack (fullSynth ℚ) 90 fullSynth_active fullSynth_note).1 ⟨1, ?_, ?_⟩
    · simp [fullSynth, exampleSynth, exampleVoice, exampleEnvelope, Envelope.isInAttack, e1]
      norm_num
    · simp [fullSynth, exampleSynth, exampleVoice, exampleEnvelope, e1]
      norm_num

/-! ## Proofs: MIDI dispatch -/

/-- Masking with `0x7F` keeps a value up to 127. -/
theorem land_7F (n : Nat) (h : n ≤ 127) : n &&& 0x7F = n := by
  have h2 := Nat.and_pow_two_sub_one_eq_mod n 7
  norm_num at h2
  rw [h2]
  exact Nat.mod_eq_of_lt (by omega)

/-- The status nibble of a message on channel `c`. -/
theorem status_nibble (c : Nat) (hc : c < 16) :
    (0x80 ||| c) &&& 0xF0 = 0x80 ∧ (0x90 ||| c) &&& 0xF0 = 0x90
      ∧ (0xB0 ||| c) &&& 0xF0 = 0xB0 := by
  interval_cases c <;> decide

/-- The method `noteOff` applies its loop body to every voice. -/
theorem noteOff_voices (s : Synth F J) (note : Int) (j : Fin numVoices) :
    (noteOff s note).voices j = noteOffVoice s.sustainPedalPressed note (s.voices j) := by
  simp [noteOff, forEachVoice_finRange]

/-- A note-on message with velocity 1..127 is dispatched to `noteOn`. -/
theorem midiMessage_noteOn (m : MathFns F) (s : Synth F J) (c n v : Nat) (hc : c < 16)
    (hn : n ≤ 127) (hv1 : 1 ≤ v) (hv : v ≤ 127) :
    midiMessage m s (0x90 ||| c) n v = noteOn m s (n : Int) (v : Int) := by
  have h9 := (status_nibble c hc).2.1
  have hv0 : 0 < v := hv1
  simp [midiMessage, h9, land_7F n hn, land_7F v hv, hv0]

/-- A note-off message is dispatched to `noteOff`. -/
theorem midiMessage_noteOff (m : MathFns F) (s : Synth F J) (c d1 d2 : Nat) (hc : c < 16) :
    midiMessage m s (0x80 ||| c) d1 d2 = noteOff s ((d1 &&& 0x7F : Nat) : Int) := by
  have h8 := (status_nibble c hc).1
  simp [midiMessage, h8]

/-- A control-change message is dispatched to `controlChange`. -/
theorem midiMessage_controlChange (m : MathFns F) (s : Synth F J) (c d1 d2 : Nat) (hc : c < 16) :
    midiMessage m s (0xB0 ||| c) d1 d2 = controlChange s d1 d2 := by
  have hb := (status_nibble c hc).2.2
  simp [midiMessage, hb]

/-- C4: for a synth whose amplitude-envelope levels are non-negative, a note-on message
`midiMessage(0x90, n, v)` with `n` in 0..127 and `v` in 1..127 changes exactly one voice; after
the call that voice holds note `n`, both its oscillators are reset, both its envelopes carry the
synth's current attack, decay, sustain and release values, and its amplitude envelope is active
(level above 1e-4) and in attack (target 2, coefficient the attack rate). -/
theorem midiMessage_noteOn_never_rejected (m : MathFns F) (s : Synth F J) (n v : Nat)
    (hlev : ∀ i, 0 ≤ (s.voices i).envelope.level) (hn : n ≤ 127) (hv : 1 ≤ v ∧ v ≤ 127) :
    ∃ k : Fin numVoices,
      (∀ j, (midiMessage m s 0x90 n v).voices j ≠ s.voices j ↔ j = k)
      ∧ ((midiMessage m s 0x90 n v).voices k).note = n
      ∧ ((midiMessage m s 0x90 n v).voices k).oscillatorA.phase = 0
      ∧ ((midiMessage m s 0x90 n v).voices k).oscillatorA.inc = 0
      ∧ ((midiMessage m s 0x90 n v).voices k).oscillatorA.amplitude = 0
      ∧ ((midiMessage m s 0x90 n v).voices k).oscillatorB.phase = 0
      ∧ ((midiMessage m s 0x90 n v).voices k).oscillatorB.inc = 0
      ∧ ((midiMessage m s 0x90 n v).voices k).oscillatorB.amplitude = 0
      ∧ ((midiMessage m s 0x90 n v).voices k).envelope.attackA = s.envAttack
      ∧ ((midiMessage m s 0x90 n v).voices k).envelope.decayA = s.envDecay
      ∧ ((midiMessage m s 0x90 n v).voices k).envelope.sustainLevel = s.envSustain
      ∧ ((midiMessage m s 0x90 n v).voices k).envelope.releaseA = s.envRelease
      ∧ ((midiMessage m s 0x90 n v).voices k).filterEnv.attackA = s.filterAttack
      ∧ ((midiMessage m s 0x90 n v).voices k).filterEnv.decayA = s.filterDecay
      ∧ ((midiMessage m s 0x90 n v).voices k).filterEnv.sustainLevel = s.filterSustain
      ∧ ((midiMessage m s 0x90 n v).voices k).filterEnv.releaseA = s.filterRelease
      ∧ ((midiMessage m s 0x90 n v).voices k).envelope.isActive = true
      ∧ ((midiMessage m s 0x90 n v).voices k).envelope.level > 0.0001
      ∧ ((midiMessage m s 0x90 n v).voices k).envelope.isInAttack = true
      ∧ ((midiMessage m s 0x90 n v).voices k).envelope.target = 2
      ∧ ((midiMessage m s 0x90 n v).voices k).envelope.a = s.envAttack := by
  have hmsg : midiMessage m s 0x90 n v = noteOn m s (n : Int) (v : Int) :=
    midiMessage_noteOn m s 0 n v (by decide) hn hv.1 hv.2
  rw [hmsg]
  have hk := noteOn_voices_chosen m s (n : Int) (v : Int)
  have hlevel : ((noteOn m s (n : Int) (v : Int)).voices (noteOnIndex s n)).envelope.level
      = (s.voices (noteOnIndex s n)).envelope.level + (0.0001 + 0.0001) := by
    rw [hk]; rfl
  have h0 := hlev (noteOnIndex s n)
  have hgt : ((noteOn m s (n : Int) (v : Int)).voices (noteOnIndex s n)).envelope.level
      > 0.0001 := by
    rw [hlevel]
    norm_num
    linarith
  refine ⟨noteOnIndex s n, ?_, ?_⟩
  · intro j
    constructor
    · intro hj
      by_contra hne
      exact hj (noteOn_voices_other m s n v j hne)
    · intro hj heq
      rw [hj] at heq
      have := congrArg (fun x => x.envelope.level) heq
      simp only [hlevel] at this
      norm_num at this
  · rw [hk] at hgt ⊢
    refine ⟨rfl, rfl, rfl, rfl, rfl, rfl, rfl, rfl, rfl, rfl, rfl, rfl, rfl, rfl, rfl, ?_, hgt,
      ?_, rfl, rfl⟩
    · simpa [Envelope.isActive, SILENCE] using hgt
    · simp [noteOnVoice, Envelope.isInAttack, Envelope.attack]

/-- C4 at `fullSynth`, where all 16 voices sound: note 90 is still taken by some voice. -/
theorem midiMessage_noteOn_never_rejected_witness :
    (∀ i, 0 ≤ ((fullSynth ℚ).voices i).envelope.level)
      ∧ (∀ i, ((fullSynth ℚ).voices i).envelope.isActive = true)
      ∧ ∃ k : Fin numVoices,
          ((midiMessage (exampleMath ℚ) (fullSynth ℚ) 0x90 90 100).voices k).note = 90
          ∧ ((midiMessage (exampleMath ℚ) (fullSynth ℚ) 0x90 90 100).voices k).envelope.isActive
              = true
          ∧ ((midiMessage (exampleMath ℚ) (fullSynth ℚ) 0x90 90 100).voices k).envelope.isInAttack
              = true := by
  obtain ⟨k, hk⟩ := midiMessage_noteOn_never_rejected (exampleMath ℚ) (fullSynth ℚ) 90 100
    fullSynth_level (by decide) (by decide)
  exact ⟨fullSynth_level, fullSynth_active, k, hk.2.1,
    hk.2.2.2.2.2.2.2.2.2.2.2.2.2.2.2.2.1, hk.2.2.2.2.2.2.2.2.2.2.2.2.2.2.2.2.2.2.1⟩

/-- C5: with the sustain flag set, a note-off message for note `n` (0..127, on any channel `c`)
leaves the flag set and leaves both envelopes of every voice unchanged (level, target,
coefficient and rates); each voice that held `n` is only marked pedal-held (note = -1) and
every other voice is unchanged. -/
theorem noteOff_under_pedal (m : MathFns F) (s : Synth F J) (c n x : Nat) (hc : c < 16)
    (hs : s.sustainPedalPressed = true) (hn : n ≤ 127) :
    (midiMessage m s (0x80 ||| c) n x).sustainPedalPressed = true
      ∧ ∀ i,
        ((midiMessage m s (0x80 ||| c) n x).voices i).envelope = (s.voices i).envelope
        ∧ ((midiMessage m s (0x80 ||| c) n x).voices i).filterEnv = (s.voices i).filterEnv
        ∧ ((s.voices i).note = n →
            (midiMessage m s (0x80 ||| c) n x).voices i = { s.voices i with note := -1 })
        ∧ ((s.voices i).note ≠ n →
            (midiMessage m s (0x80 ||| c) n x).voices i = s.voices i) := by
  rw [midiMessage_noteOff m s c n x hc, land_7F n hn]
  refine ⟨hs, fun i => ?_⟩
  rw [noteOff_voices, hs]
  by_cases h : (s.voices i).note = (n : Int)
  · simp [noteOffVoice, h]
  · simp [noteOffVoice, h]

/-- C6: a control change 0x40 (on any channel `c`) with value below 64 clears the sustain flag,
puts both envelopes of every pedal-held voice (note = -1) into release (target 0, coefficient
the envelope's release rate, level kept) and sets its note to 0, leaving every other voice
unchanged; with value 64 or more it sets the flag and changes no voice. -/
theorem pedal_release (m : MathFns F) (s : Synth F J) (c value : Nat) (hc : c < 16) :
    (value < 64 →
        (midiMessage m s (0xB0 ||| c) 0x40 value).sustainPedalPressed = false
        ∧ ∀ i,
          ((s.voices i).note = -1 →
            (midiMessage m s (0xB0 ||| c) 0x40 value).voices i
                = { s.voices i with
                    envelope := { (s.voices i).envelope with
                      target := 0, a := (s.voices i).envelope.releaseA }
                    filterEnv := { (s.voices i).filterEnv with
                      target := 0, a := (s.voices i).filterEnv.releaseA }
                    note := 0 })
          ∧ ((s.voices i).note ≠ -1 →
            (midiMessage m s (0xB0 ||| c) 0x40 value).voices i = s.voices i))
      ∧ (64 ≤ value →
        (midiMessage m s (0xB0 ||| c) 0x40 value).sustainPedalPressed = true
        ∧ (midiMessage m s (0xB0 ||| c) 0x40 value).voices = s.voices) := by
  rw [midiMessage_controlChange m s c 0x40 value hc]
  constructor
  · intro hv
    have hd : decide (value ≥ 64) = false := by simp; omega
    simp only [controlChange, if_true, hd]
    refine ⟨rfl, fun i => ?_⟩
    simp only [Bool.not_false, if_true]
    rw [noteOff_voices]
    by_cases h : (s.voices i).note = -1
    · simp [noteOffVoice, h, Envelope.release]
    · simp [noteOffVoice, h]
  · intro hv
    have hd : decide (value ≥ 64) = true := by simp; omega
    simp [controlChange, hd]

/-- C7: a note-on message whose velocity byte has its low 7 bits zero yields the same synth
state as the note-off message for the same note byte on the same channel, whatever the
note-off's second data byte. -/
theorem noteOn_velocity_zero_is_noteOff (m : MathFns F) (s : Synth F J) (c d1 d2 x : Nat)
    (hc : c < 16) (hz : d2 &&& 0x7F = 0) :
    midiMessage m s (0x90 ||| c) d1 d2 = midiMessage m s (0x80 ||| c) d1 x := by
  rw [midiMessage_noteOff m s c d1 x hc]
  have h9 := (status_nibble c hc).2.1
  simp [midiMessage, h9, hz]

/-- C5 at `pedalSynth` with the pedal held: voice 2 (note 64) becomes pedal-held and keeps its
envelope. -/
theorem noteOff_under_pedal_witness :
    (pedalSynth ℚ true).sustainPedalPressed = true
      ∧ ((pedalSynth ℚ true).voices 2).note = 64
      ∧ ((midiMessage (exampleMath ℚ) (pedalSynth ℚ true) (0x80 ||| 0) 64 0).voices 2).note = -1
      ∧ ((midiMessage (exampleMath ℚ) (pedalSynth ℚ true) (0x80 ||| 0) 64 0).voices 2).envelope
          = ((pedalSynth ℚ true).voices 2).envelope := by
  have h := (noteOff_under_pedal (exampleMath ℚ) (pedalSynth ℚ true) 0 64 0 (by decide) rfl
    (by decide)).2 2
  have h2 : ((pedalSynth ℚ true).voices 2).note = 64 := rfl
  refine ⟨rfl, h2, ?_, h.1⟩
  rw [h.2.2.1 h2]

/-- C6 at `pedalSynth`: value 0 releases the pedal-held voice 7 and leaves voice 2; value 127
sets the flag. -/
theorem pedal_release_witness :
    ((pedalSynth ℚ true).voices 7).note = -1
      ∧ (midiMessage (exampleMath ℚ) (pedalSynth ℚ true) (0xB0 ||| 0) 0x40 0).sustainPedalPressed
          = false
      ∧ ((midiMessage (exampleMath ℚ) (pedalSynth ℚ true) (0xB0 ||| 0) 0x40 0).voices 7).note = 0
      ∧ ((midiMessage (exampleMath ℚ) (pedalSynth ℚ true) (0xB0 ||| 0) 0x40 0).voices
          7).envelope.target = 0
      ∧ (midiMessage (exampleMath ℚ) (pedalSynth ℚ true) (0xB0 ||| 0) 0x40 0).voices 2
          = (pedalSynth ℚ true).voices 2
      ∧ (midiMessage (exampleMath ℚ) (pedalSynth ℚ false) (0xB0 ||| 0) 0x40 127).sustainPedalPressed
          = true := by
  have h := (pedal_release (exampleMath ℚ) (pedalSynth ℚ true) 0 0 (by decide)).1 (by decide)
  have h7 : ((pedalSynth ℚ true).voices 7).note = -1 := rfl
  have h2 : ((pedalSynth ℚ true).voices 2).note ≠ -1 := by
    have : ((pedalSynth ℚ true).voices 2).note = 64 := rfl
    rw [this]; decide
  refine ⟨h7, h.1, ?_, ?_, (h.2 2).2 h2,
    ((pedal_release (exampleMath ℚ) (pedalSynth ℚ false) 0 127 (by decide)).2 (by decide)).1⟩
  · rw [(h.2 7).1 h7]
  · rw [(h.2 7).1 h7]

/-- C7 at `fullSynth`: velocity byte 128 (low 7 bits zero) on channel 3. -/
theorem noteOn_velocity_zero_is_noteOff_witness :
    (128 &&& 0x7F = 0)
      ∧ midiMessage (exampleMath ℚ) (fullSynth ℚ) (0x90 ||| 3) 60 128
          = midiMessage (exampleMath ℚ) (fullSynth ℚ) (0x80 ||| 3) 60 64 :=
  ⟨by decide, noteOn_velocity_zero_is_noteOff (exampleMath ℚ) (fullSynth ℚ) 3 60 128 64
    (by decide) (by decide)⟩

end VoiceSearch

/-! ## Proofs: tuning -/

/-- C8: with `std::exp2` read as the real function `2 ^ x`, the voice chosen by `noteOn(n, v)`
gets frequency `440 * 2 ^ ((n - 69 + masterTune) / 12)`; so note 69 with `masterTune = 0` gives
440, and the note 12 above `n` gets twice the frequency of `n`. -/
theorem noteOn_frequency (m : MathFns ℝ) (hexp2 : ∀ x, m.exp2 x = (2 : ℝ) ^ x) {J : Juce ℝ}
    (s : Synth ℝ J) (n v : Int) :
    ((noteOn m s n v).voices (noteOnIndex s n)).frequency
        = 440 * (2 : ℝ) ^ (((n : ℝ) - 69 + s.masterTune) / 12)
      ∧ (s.masterTune = 0 → ((noteOn m s 69 v).voices (noteOnIndex s 69)).frequency = 440)
      ∧ ((noteOn m s (n + 12) v).voices (noteOnIndex s (n + 12))).frequency
          = 2 * ((noteOn m s n v).voices (noteOnIndex s n)).frequency := by
  have hf : ∀ k : Int, ((noteOn m s k v).voices (noteOnIndex s k)).frequency
      = 440 * (2 : ℝ) ^ (((k : ℝ) - 69 + s.masterTune) / 12) := by
    intro k
    rw [noteOn_voices_chosen]
    show 440 * m.exp2 ((((k - 69 : Int) : ℝ) + s.masterTune) / 12) = _
    rw [hexp2]
    push_cast
    rfl
  refine ⟨hf n, ?_, ?_⟩
  · intro h0
    rw [hf 69, h0]
    norm_num
  · rw [hf (n + 12), hf n]
    have : (((n + 12 : Int) : ℝ) - 69 + s.masterTune) / 12
        = ((n : ℝ) - 69 + s.masterTune) / 12 + 1 := by
      push_cast
      ring
    rw [this, Real.rpow_add (by norm_num : (0 : ℝ) < 2), Real.rpow_one]
    ring

/-- C8 at `fullSynth` (masterTune 0) with the real `2 ^ x`: note 69 gets 440 Hz. -/
theorem noteOn_frequency_witness :
    ((noteOn ⟨Real.exp, fun x => (2 : ℝ) ^ x, Real.sin, Real.pi⟩ (fullSynth ℝ) 69 100).voices
        (noteOnIndex (fullSynth ℝ) 69)).frequency = 440 :=
  (noteOn_frequency ⟨Real.exp, fun x => (2 : ℝ) ^ x, Real.sin, Real.pi⟩ (fun _ => rfl)
    (fullSynth ℝ) 69 100).2.1 rfl

end Synth

/-! ## Proofs: the envelope -/

namespace Envelope

section EnvelopeProofs

variable {F : Type} [LinearOrderedField F]

/-- Running `k + 1` calls is running `k` calls and one more. -/
theorem run_succ (k : Nat) (e : Envelope F) : run (k + 1) e = (nextValue (run k e)).2 := by
  induction k generalizing e with
  | zero => rfl
  | succ k ih =>
    show run (k + 1) (nextValue e).2 = (nextValue (run k (nextValue e).2)).2
    exact ih _

/-- The value returned by a call is the level it leaves. -/
theorem returned_eq (k : Nat) (e : Envelope F) : returned k e = (run (k + 1) e).level := by
  rw [run_succ]
  rfl

/-- One `nextValue` call that does not trigger the switch `level + target > 3`. -/
theorem nextValue_stay (e : Envelope F)
    (h : ¬ e.a * (e.level - e.target) + e.target + e.target > 3) :
    (nextValue e).2 = { e with level := e.a * (e.level - e.target) + e.target } := by
  unfold nextValue
  simp only
  rw [if_neg h]

/-- After `release()` from a level in [0, 3], `j` calls leave level `releaseA ^ j * level`. -/
theorem release_run (e : Envelope F) (hr : 0 ≤ e.releaseA ∧ e.releaseA < 1)
    (hl : 0 ≤ e.level ∧ e.level ≤ 3) (j : Nat) :
    run j e.release
      = { e with target := 0, a := e.releaseA, level := e.releaseA ^ j * e.level } := by
  induction j with
  | zero => simp [run, release]
  | succ j ih =>
    rw [run_succ, ih]
    have hp0 : 0 ≤ e.releaseA ^ (j + 1) := pow_nonneg hr.1 _
    have hp1 : e.releaseA ^ (j + 1) ≤ 1 := pow_le_one₀ hr.1 (le_of_lt hr.2)
    have hle : e.releaseA ^ (j + 1) * e.level ≤ 3 := by nlinarith
    rw [nextValue_stay]
    · simp only [sub_zero, add_zero]
      rw [pow_succ]
      congr 1
      ring
    · simp only [sub_zero, add_zero, not_lt, ← mul_assoc, ← pow_succ']
      exact hle

/-- C10: for an envelope with release coefficient in [0, 1) and level in [0, 3], after
`release()` every value returned by `nextValue()` is non-negative, at most the level before
it (so the returned sequence is non-increasing, starting below the level at release), the
target stays 0 with the release rate as coefficient (never in attack again), and from some call
on `isActive()` is false for good. -/
theorem release_decays [Archimedean F] (e : Envelope F)
    (hr : 0 ≤ e.releaseA ∧ e.releaseA < 1) (hl : 0 ≤ e.level ∧ e.level ≤ 3) :
    returned 0 e.release ≤ e.level
      ∧ (∀ j, 0 ≤ returned j e.release ∧ returned (j + 1) e.release ≤ returned j e.release)
      ∧ (∀ j, (run j e.release).target = 0 ∧ (run j e.release).a = e.releaseA
          ∧ (run j e.release).isInAttack = false)
      ∧ ∃ k : Nat, ∀ j, k ≤ j → (run j e.release).isActive = false := by
  have hrun := release_run e hr hl
  have hret : ∀ j, returned j e.release = e.releaseA ^ (j + 1) * e.level := by
    intro j
    rw [returned_eq, hrun]
  have hpow : ∀ j, 0 ≤ e.releaseA ^ j := fun j => pow_nonneg hr.1 j
  refine ⟨?_, ?_, ?_, ?_⟩
  · rw [hret]
    have : e.releaseA ^ (0 + 1) ≤ 1 := pow_le_one₀ hr.1 (le_of_lt hr.2)
    nlinarith [hl.1]
  · intro j
    rw [hret, hret]
    refine ⟨mul_nonneg (hpow _) hl.1, ?_⟩
    have h1 : e.releaseA ^ (j + 1 + 1) = e.releaseA * e.releaseA ^ (j + 1) := pow_succ' _ _
    rw [h1]
    have h2 := mul_nonneg (hpow (j + 1)) hl.1
    nlinarith [hr.2]
  · intro j
    rw [hrun]
    refine ⟨rfl, rfl, ?_⟩
    simp [isInAttack]
  · obtain ⟨k, hk⟩ := exists_pow_lt_of_lt_one (show (0 : F) < 0.0001 / 3 by norm_num) hr.2
    refine ⟨k, fun j hj => ?_⟩
    rw [hrun]
    simp only [isActive, SILENCE, decide_eq_false_iff_not, not_lt, gt_iff_lt]
    have h1 : e.releaseA ^ j ≤ e.releaseA ^ k := pow_le_pow_of_le_one hr.1 (le_of_lt hr.2) hj
    have h2 : e.releaseA ^ j * e.level ≤ e.releaseA ^ j * 3 :=
      mul_le_mul_of_nonneg_left hl.2 (hpow j)
    have h3 : e.releaseA ^ k * 3 < 0.0001 := by
      rw [lt_div_iff₀ (by norm_num : (0 : F) < 3)] at hk
      exact hk
    linarith

/-- C10 at an envelope with release rate 1/2 and level 1. -/
theorem release_decays_witness :
    ((0 : ℚ) ≤ (exampleEnvelope ℚ 1 1).releaseA ∧ (exampleEnvelope ℚ 1 1).releaseA < 1)
      ∧ ((0 : ℚ) ≤ (exampleEnvelope ℚ 1 1).level ∧ (exampleEnvelope ℚ 1 1).level ≤ 3)
      ∧ ∃ k : Nat, ∀ j, k ≤ j → (run j (exampleEnvelope ℚ 1 1).release).isActive = false := by
  have hr : (0 : ℚ) ≤ (exampleEnvelope ℚ 1 1).releaseA ∧ (exampleEnvelope ℚ 1 1).releaseA < 1 := by
    simp only [exampleEnvelope]
    norm_num
  have hl : (0 : ℚ) ≤ (exampleEnvelope ℚ 1 1).level ∧ (exampleEnvelope ℚ 1 1).level ≤ 3 := by
    simp only [exampleEnvelope]
    norm_num
  exact ⟨hr, hl, (release_decays (exampleEnvelope ℚ 1 1) hr hl).2.2.2⟩

end EnvelopeProofs

end Envelope

/-! ## Proofs: the oscillator -/

namespace Oscillator
section OscillatorProofs
variable {F : Type} [LinearOrderedField F]

end OscillatorProofs
end Oscillator

/-! ## Proofs: clamping, unrecognised MIDI and the filter coefficients -/

section ClampProofs
variable {F : Type} [LinearOrderedField F]

/-- The function `clamp` lands in `[lo, hi]` when `lo ≤ hi`. -/
theorem clamp_mem (v lo hi : F) (h : lo ≤ hi) : lo ≤ clamp v lo hi ∧ clamp v lo hi ≤ hi := by
  unfold clamp
  split
  · exact ⟨le_refl _, h⟩
  · split
    · exact ⟨h, le_refl _⟩
    · constructor <;> linarith

/-- The function `clamp` returns a value that already lies in `[lo, hi]`. -/
theorem clamp_of_mem (v lo hi : F) (h1 : lo ≤ v) (h2 : v ≤ hi) : clamp v lo hi = v := by
  unfold clamp
  rw [if_neg (not_lt.mpr h1), if_neg (not_lt.mpr h2)]

/-- The function `clamp` is monotone in its first argument when `lo ≤ hi`. -/
theorem clamp_mono (v w lo hi : F) (h : lo ≤ hi) (hvw : v ≤ w) :
    clamp v lo hi ≤ clamp w lo hi := by
  unfold clamp
  split_ifs <;> linarith

end ClampProofs

namespace Synth
section MidiProofs
variable {F : Type} [LinearOrderedField F] {J : Juce F}

set_option maxRecDepth 100000 in
/-- Masking a byte with `0xF0` keeps its high nibble. -/
theorem land_F0 (d : Nat) (h : d < 256) : d &&& 0xF0 = d / 16 * 16 := by
  have key : ∀ x : Fin 256, x.val &&& 0xF0 = x.val / 16 * 16 := by decide
  exact key ⟨d, h⟩

/-- C14: a MIDI message whose status byte has a high nibble other than 0x8, 0x9, 0xB, 0xD and
0xE leaves the synth state unchanged, whatever the data bytes; and a control change (status
0xB0 on any channel `c`) with a controller number below 0x78 other than 0x01, 0x40, 0x47, 0x4A
and 0x4B leaves the synth state unchanged. -/
theorem unrecognised_midi_ignored (mf : MathFns F) (s : Synth F J) (data0 data1 data2 : Nat)
    (hbyte : data0 < 256) :
    ((data0 / 16 ≠ 0x8 ∧ data0 / 16 ≠ 0x9 ∧ data0 / 16 ≠ 0xB ∧ data0 / 16 ≠ 0xD
          ∧ data0 / 16 ≠ 0xE) →
        midiMessage mf s data0 data1 data2 = s)
      ∧ ((data0 / 16 = 0xB ∧ data1 < 0x78 ∧ data1 ≠ 0x01 ∧ data1 ≠ 0x40 ∧ data1 ≠ 0x47
          ∧ data1 ≠ 0x4A ∧ data1 ≠ 0x4B) →
        midiMessage mf s data0 data1 data2 = s) := by
  have hmask := land_F0 data0 hbyte
  constructor
  · rintro ⟨h8, h9, hB, hD, hE⟩
    unfold midiMessage
    rw [hmask]
    rw [if_neg (by omega), if_neg (by omega), if_neg (by omega), if_neg (by omega),
      if_neg (by omega)]
  · rintro ⟨hB, h78, h1, h40, h47, h4A, h4B⟩
    unfold midiMessage
    rw [hmask]
    rw [if_neg (by omega), if_neg (by omega), if_neg (by omega), if_pos (by omega)]
    unfold controlChange
    rw [if_neg h40, if_neg h1, if_neg h47, if_neg h4A, if_neg h4B, if_neg (by omega)]

/-- C14 at `fullSynth`: a program change (0xC5) and a control change for controller 7 (volume)
on channel 2 leave the state unchanged. -/
theorem unrecognised_midi_ignored_witness :
    midiMessage (exampleMath ℚ) (fullSynth ℚ) 0xC5 10 0 = fullSynth ℚ
      ∧ midiMessage (exampleMath ℚ) (fullSynth ℚ) 0xB2 7 100 = fullSynth ℚ :=
  ⟨(unrecognised_midi_ignored (exampleMath ℚ) (fullSynth ℚ) 0xC5 10 0 (by decide)).1
      (by decide),
    (unrecognised_midi_ignored (exampleMath ℚ) (fullSynth ℚ) 0xB2 7 100 (by decide)).2
      (by decide)⟩

end MidiProofs
end Synth

namespace Voice
section FilterProofs
variable {F : Type} [LinearOrderedField F] {J : Juce F}

end FilterProofs
end Voice

/-! ## Proofs: panning -/

namespace Voice

/-- The pan position of `updatePanning` is in [-0.3, 0.3] and its gains are the two sines. -/
theorem updatePanning_gains {F : Type} [LinearOrderedField F] {J : Juce F} (mf : MathFns F)
    (v : Voice F J) :
    (v.updatePanning mf).panLeft
        = mf.sin (mf.pi / 4 * (1 - clamp (((v.note : F) - 60) / 96) (-0.3) 0.3))
      ∧ (v.updatePanning mf).panRight
        = mf.sin (mf.pi / 4 * (1 + clamp (((v.note : F) - 60) / 96) (-0.3) 0.3)) :=
  ⟨rfl, rfl⟩

/-- C16: with `std::sin` and pi read as the real sine and pi, `updatePanning()` sets
`panLeft = sin(pi/4 * (1 - p))` and `panRight = sin(pi/4 * (1 + p))` for the pan position
`p = (note - 60) / 96` clamped to [-0.3, 0.3]; then `panLeft^2 + panRight^2 = 1`, the gains are
equal at note 60, `panRight` is non-decreasing in the note number, and every note from 89 up
(from 31 down) gets the gains of the clamp limit 0.3 (-0.3). -/
theorem updatePanning_equal_power (mf : MathFns ℝ) (hsin : mf.sin = Real.sin)
    (hpi : mf.pi = Real.pi) {J : Juce ℝ} (v w : Voice ℝ J) :
    ((v.updatePanning mf).panLeft
          = Real.sin (Real.pi / 4 * (1 - clamp (((v.note : ℝ) - 60) / 96) (-0.3) 0.3))
        ∧ (v.updatePanning mf).panRight
          = Real.sin (Real.pi / 4 * (1 + clamp (((v.note : ℝ) - 60) / 96) (-0.3) 0.3)))
      ∧ (v.updatePanning mf).panLeft ^ 2 + (v.updatePanning mf).panRight ^ 2 = 1
      ∧ (v.note = 60 → (v.updatePanning mf).panLeft = (v.updatePanning mf).panRight)
      ∧ (v.note ≤ w.note → (v.updatePanning mf).panRight ≤ (w.updatePanning mf).panRight)
      ∧ (89 ≤ v.note →
          (v.updatePanning mf).panLeft = Real.sin (Real.pi / 4 * (1 - 0.3))
          ∧ (v.updatePanning mf).panRight = Real.sin (Real.pi / 4 * (1 + 0.3)))
      ∧ (v.note ≤ 31 →
          (v.updatePanning mf).panLeft = Real.sin (Real.pi / 4 * (1 + 0.3))
          ∧ (v.updatePanning mf).panRight = Real.sin (Real.pi / 4 * (1 - 0.3))) := by
  have hgain : ∀ u : Voice ℝ J,
      (u.updatePanning mf).panLeft
          = Real.sin (Real.pi / 4 * (1 - clamp (((u.note : ℝ) - 60) / 96) (-0.3) 0.3))
        ∧ (u.updatePanning mf).panRight
          = Real.sin (Real.pi / 4 * (1 + clamp (((u.note : ℝ) - 60) / 96) (-0.3) 0.3)) := by
    intro u
    have h := updatePanning_gains mf u
    rw [hsin, hpi] at h
    exact h
  have hmem : ∀ u : Voice ℝ J, (-0.3 : ℝ) ≤ clamp (((u.note : ℝ) - 60) / 96) (-0.3) 0.3
      ∧ clamp (((u.note : ℝ) - 60) / 96) (-0.3) 0.3 ≤ 0.3 :=
    fun u => clamp_mem _ _ _ (by norm_num)
  have hpos := Real.pi_pos
  refine ⟨hgain v, ?_, ?_, ?_, ?_, ?_⟩
  · rw [(hgain v).1, (hgain v).2]
    have hcos : Real.sin (Real.pi / 4 * (1 - clamp (((v.note : ℝ) - 60) / 96) (-0.3) 0.3))
        = Real.cos (Real.pi / 4 * (1 + clamp (((v.note : ℝ) - 60) / 96) (-0.3) 0.3)) := by
      rw [← Real.sin_pi_div_two_sub]
      congr 1
      ring
    rw [hcos]
    exact Real.cos_sq_add_sin_sq _
  · intro h60
    rw [(hgain v).1, (hgain v).2, h60]
    have : clamp ((((60 : Int) : ℝ) - 60) / 96) (-0.3) 0.3 = 0 := by
      rw [clamp_of_mem] <;> norm_num
    rw [this]
    norm_num
  · intro hle
    rw [(hgain v).2, (hgain w).2]
    have hnote : ((v.note : ℝ) - 60) / 96 ≤ ((w.note : ℝ) - 60) / 96 := by
      have : (v.note : ℝ) ≤ (w.note : ℝ) := by exact_mod_cast hle
      linarith
    have hcl := clamp_mono _ _ (-0.3 : ℝ) 0.3 (by norm_num) hnote
    apply Real.sin_le_sin_of_le_of_le_pi_div_two
    · nlinarith [(hmem v).1]
    · nlinarith [(hmem w).2]
    · nlinarith
  · intro h89
    have hc : clamp (((v.note : ℝ) - 60) / 96) (-0.3) 0.3 = 0.3 := by
      have h1 : (89 : ℝ) ≤ (v.note : ℝ) := by exact_mod_cast h89
      unfold clamp
      rw [if_neg (by linarith), if_pos (by linarith)]
    rw [(hgain v).1, (hgain v).2, hc]
    exact ⟨rfl, rfl⟩
  · intro h31
    have hc : clamp (((v.note : ℝ) - 60) / 96) (-0.3) 0.3 = -0.3 := by
      have h1 : (v.note : ℝ) ≤ 31 := by exact_mod_cast h31
      unfold clamp
      rw [if_pos (by linarith)]
    rw [(hgain v).1, (hgain v).2, hc]
    constructor
    · congr 1; ring
    · congr 1

/-- C16 with the real sine and pi, at two voices of `fullSynth` (notes 60 and 75): the squared
gains of note 60 sum to 1, its gains are equal, and note 75 is panned at least as far right. -/
theorem updatePanning_equal_power_witness :
    (((fullSynth ℝ).voices 0).updatePanning
            ⟨Real.exp, fun x => (2 : ℝ) ^ x, Real.sin, Real.pi⟩).panLeft ^ 2
        + (((fullSynth ℝ).voices 0).updatePanning
            ⟨Real.exp, fun x => (2 : ℝ) ^ x, Real.sin, Real.pi⟩).panRight ^ 2 = 1
      ∧ (((fullSynth ℝ).voices 0).updatePanning
            ⟨Real.exp, fun x => (2 : ℝ) ^ x, Real.sin, Real.pi⟩).panLeft
          = (((fullSynth ℝ).voices 0).updatePanning
            ⟨Real.exp, fun x => (2 : ℝ) ^ x, Real.sin, Real.pi⟩).panRight
      ∧ (((fullSynth ℝ).voices 0).updatePanning
            ⟨Real.exp, fun x => (2 : ℝ) ^ x, Real.sin, Real.pi⟩).panRight
          ≤ (((fullSynth ℝ).voices 15).updatePanning
            ⟨Real.exp, fun x => (2 : ℝ) ^ x, Real.sin, Real.pi⟩).panRight := by
  have h := updatePanning_equal_power ⟨Real.exp, fun x => (2 : ℝ) ^ x, Real.sin, Real.pi⟩ rfl rfl
    ((fullSynth ℝ).voices 0) ((fullSynth ℝ).voices 15)
  have h0 : ((fullSynth ℝ).voices 0).note = 60 := rfl
  have h15 : ((fullSynth ℝ).voices 0).note ≤ ((fullSynth ℝ).voices 15).note := by decide
  exact ⟨h.2.1, h.2.2.1 h0, h.2.2.2.1 h15⟩

end Voice

/-! ## Proofs: the LFO schedule -/

namespace Synth
section LfoProofs
variable {F : Type} [LinearOrderedField F] {J : Juce F}

/-- A call of `updateLFO` that does not advance the LFO only decrements the counter. -/
theorem updateLFO_idle (mf : MathFns F) (s : Synth F J) (h : lfoTicks s = false) :
    updateLFO mf s = { s with lfoStep := s.lfoStep - 1 } := by
  have h1 : ¬ s.lfoStep - 1 ≤ 0 := by simpa [lfoTicks] using h
  unfold updateLFO
  simp only [if_neg h1]

/-- A call of `updateLFO` that advances the LFO reloads the counter with `LFO_MAX`, adds
`lfoInc` to the phase and wraps it, and runs the voice loop. -/
theorem updateLFO_tick (mf : MathFns F) (s : Synth F J) (h : lfoTicks s = true) :
    (updateLFO mf s).lfoStep = 32
      ∧ (updateLFO mf s).lfo
          = (if s.lfo + s.lfoInc > mf.pi then s.lfo + s.lfoInc - 2 * mf.pi
            else s.lfo + s.lfoInc)
      ∧ ∀ i, (updateLFO mf s).voices i
          = updateLFOVoice mf
              (1 + mf.sin (updateLFO mf s).lfo * (s.modWheel + s.vibrato))
              (1 + mf.sin (updateLFO mf s).lfo * (s.modWheel + s.pwmDepth))
              (updateLFO mf s).filterSmoother (s.voices i) := by
  have h1 : s.lfoStep - 1 ≤ 0 := by simpa [lfoTicks] using h
  unfold updateLFO
  simp only [if_pos h1]
  refine ⟨?_, ?_, ?_⟩
  · split <;> rfl
  · split <;> rfl
  · intro i
    rw [forEachVoice_finRange]
    split <;> rfl

/-- The counter after one call of `updateLFO`. -/
theorem updateLFO_lfoStep (mf : MathFns F) (s : Synth F J) :
    (updateLFO mf s).lfoStep = if s.lfoStep - 1 ≤ 0 then 32 else s.lfoStep - 1 := by
  by_cases h : s.lfoStep - 1 ≤ 0
  · rw [if_pos h]
    exact (updateLFO_tick mf s (by simpa [lfoTicks] using h)).1
  · rw [if_neg h, updateLFO_idle mf s (by simpa [lfoTicks] using h)]

/-- Running `n + 1` calls is running `n` calls and one more. -/
theorem runLFO_succ (mf : MathFns F) (n : Nat) (s : Synth F J) :
    runLFO mf (n + 1) s = updateLFO mf (runLFO mf n s) := by
  induction n generalizing s with
  | zero => rfl
  | succ n ih =>
    show runLFO mf (n + 1) (updateLFO mf s) = updateLFO mf (runLFO mf n (updateLFO mf s))
    exact ih _

/-- The counter after `n` calls depends on the counter before only. -/
theorem runLFO_lfoStep_congr (mf : MathFns F) (n : Nat) (s t : Synth F J)
    (h : s.lfoStep = t.lfoStep) : (runLFO mf n s).lfoStep = (runLFO mf n t).lfoStep := by
  induction n with
  | zero => exact h
  | succ n ih => rw [runLFO_succ, runLFO_succ, updateLFO_lfoStep, updateLFO_lfoStep, ih]

end LfoProofs
end Synth

/-! ## Proofs: the loops of render -/

namespace Synth
section RenderProofs
variable {F : Type} [LinearOrderedField F] {J : Juce F}

/-- The first loop of `render` touches neither the LFO counter nor an inactive voice. -/
theorem renderPrepareVoice_frame (s : Synth F J) (j : Fin numVoices) :
    (renderPrepareVoice s j).lfoStep = s.lfoStep
      ∧ ∀ i, (s.voices i).envelope.isActive = false →
          (renderPrepareVoice s j).voices i = s.voices i := by
  unfold renderPrepareVoice
  simp only
  split
  · rename_i hj
    refine ⟨rfl, fun i hi => ?_⟩
    have hne : i ≠ j := by
      rintro rfl
      rw [hi] at hj
      exact absurd hj (by decide)
    simp only [Function.update_noteq hne]
  · exact ⟨rfl, fun _ _ => rfl⟩

/-- The first loop of `render` touches neither the LFO counter nor an inactive voice. -/
theorem renderPrepare_frame (l : List (Fin numVoices)) (s : Synth F J) :
    (renderPrepare l s).lfoStep = s.lfoStep
      ∧ ∀ i, (s.voices i).envelope.isActive = false → (renderPrepare l s).voices i = s.voices i := by
  induction l generalizing s with
  | nil => exact ⟨rfl, fun _ _ => rfl⟩
  | cons j rest ih =>
    obtain ⟨h1, h2⟩ := renderPrepareVoice_frame s j
    obtain ⟨h3, h4⟩ := ih (renderPrepareVoice s j)
    refine ⟨h3.trans h1, fun i hi => ?_⟩
    show (renderPrepare rest (renderPrepareVoice s j)).voices i = s.voices i
    rw [h4 i (by rw [h2 i hi]; exact hi), h2 i hi]

/-- The method `updateLFO` leaves an inactive voice unchanged. -/
theorem updateLFO_inactive (mf : MathFns F) (s : Synth F J) (i : Fin numVoices)
    (hi : (s.voices i).envelope.isActive = false) : (updateLFO mf s).voices i = s.voices i := by
  by_cases h : lfoTicks s = true
  · rw [(updateLFO_tick mf s h).2.2 i]
    unfold updateLFOVoice
    rw [if_neg (by rw [hi]; decide)]
  · rw [updateLFO_idle mf s (by simpa using h)]

/-- The voice loop of a sample touches neither the LFO counter nor an inactive voice. -/
theorem renderVoices_frame (mf : MathFns F) (fuel : Nat) (l : List (Fin numVoices))
    (s : Synth F J) (outputL outputR : F) (r : Synth F J × F × F)
    (hr : renderVoices mf fuel l s outputL outputR = some r) :
    r.1.lfoStep = s.lfoStep
      ∧ r.1.outputLevelSmoother = s.outputLevelSmoother
      ∧ ∀ i, (s.voices i).envelope.isActive = false → r.1.voices i = s.voices i := by
  induction l generalizing s outputL outputR with
  | nil =>
    simp only [renderVoices, Option.some.injEq] at hr
    rw [← hr]
    exact ⟨rfl, rfl, fun _ _ => rfl⟩
  | cons j rest ih =>
    unfold renderVoices at hr
    split at hr
    · rename_i hj
      simp only at hr
      split at hr
      · exact absurd hr (by simp)
      · obtain ⟨h1, h2, h3⟩ := ih _ _ _ hr
        refine ⟨h1, h2, fun i hi => ?_⟩
        have hne : i ≠ j := by
          rintro rfl
          rw [hi] at hj
          exact absurd hj (by decide)
        rw [h3 i (by simp only [Function.update_noteq hne]; exact hi)]
        simp only [Function.update_noteq hne]
    · exact ih _ _ _ hr

/-- With no active voice the voice loop of a sample returns at once and adds nothing. -/
theorem renderVoices_idle (mf : MathFns F) (fuel : Nat) (l : List (Fin numVoices))
    (s : Synth F J) (outputL outputR : F)
    (hidle : ∀ i, (s.voices i).envelope.isActive = false) :
    renderVoices mf fuel l s outputL outputR = some (s, outputL, outputR) := by
  induction l with
  | nil => rfl
  | cons j rest ih =>
    unfold renderVoices
    rw [if_neg (by rw [hidle j]; decide)]
    exact ih

/-- The sample loop leaves an inactive voice unchanged. -/
theorem renderSamples_inactive (mf : MathFns F) (fuel : Nat) (bufferOffset numChannels : Int)
    (count : Nat) (sample : Int) (s : Synth F J) (buffer : AudioBuffer F)
    (r : Synth F J × AudioBuffer F)
    (hr : renderSamples mf fuel bufferOffset numChannels count sample s buffer = some r)
    (i : Fin numVoices) (hi : (s.voices i).envelope.isActive = false) :
    r.1.voices i = s.voices i := by
  induction count generalizing sample s buffer with
  | zero =>
    simp only [renderSamples, Option.some.injEq] at hr
    rw [← hr]
  | succ count ih =>
    unfold renderSamples at hr
    simp only at hr
    split at hr
    · exact absurd hr (by simp)
    · rename_i s1 outputL outputR hv
      have hu := updateLFO_inactive mf s i hi
      have hf := (renderVoices_frame mf fuel _ _ _ _ _ hv).2.2 i (by rw [hu]; exact hi)
      have h1 : s1.voices i = s.voices i := by rw [hf, hu]
      rw [ih _ _ _ hr (by show (s1.voices i).envelope.isActive = false; rw [h1]; exact hi)]
      exact h1

/-- Writing a silent frame puts 0 at the position written and keeps every other value. -/
theorem writeFrame_zero (buffer : AudioBuffer F) (position numChannels : Int) :
    (∀ c p, writeFrame buffer position numChannels 0 0 c p = 0
        ∨ writeFrame buffer position numChannels 0 0 c p = buffer c p)
      ∧ writeFrame buffer position numChannels 0 0 0 position = 0
      ∧ (numChannels > 1 → writeFrame buffer position numChannels 0 0 1 position = 0) := by
  unfold writeFrame
  refine ⟨fun c p => ?_, ?_, ?_⟩
  · split
    · by_cases hc1 : c = 1
      · subst hc1
        by_cases hp : p = position
        · left; simp [hp]
        · right; simp [Function.update_noteq hp]
      · by_cases hc0 : c = 0
        · subst hc0
          by_cases hp : p = position
          · left; simp [hp]
          · right; simp [Function.update_noteq hp]
        · right; simp [Function.update_noteq hc1, Function.update_noteq hc0]
    · by_cases hc0 : c = 0
      · subst hc0
        by_cases hp : p = position
        · left; simp [hp]
        · right; simp [Function.update_noteq hp]
      · right; simp [Function.update_noteq hc0]
  · split <;> simp
  · intro h
    rw [if_pos h]
    simp

/-- With no active voice the sample loop returns and writes 0 to every frame it writes; every
buffer value afterwards is 0 or the value before. -/
theorem renderSamples_idle (mf : MathFns F) (fuel : Nat) (bufferOffset numChannels : Int)
    (count : Nat) (sample : Int) (s : Synth F J) (buffer : AudioBuffer F)
    (hidle : ∀ i, (s.voices i).envelope.isActive = false) :
    ∃ r, renderSamples mf fuel bufferOffset numChannels count sample s buffer = some r
      ∧ (∀ c p, r.2 c p = 0 ∨ r.2 c p = buffer c p)
      ∧ ∀ k : Nat, k < count →
          r.2 0 (bufferOffset + (sample + k)) = 0
          ∧ (numChannels > 1 → r.2 1 (bufferOffset + (sample + k)) = 0) := by
  induction count generalizing sample s buffer with
  | zero => exact ⟨_, rfl, fun _ _ => Or.inr rfl, fun k hk => absurd hk (Nat.not_lt_zero k)⟩
  | succ count ih =>
    have hidle1 : ∀ i, ((updateLFO mf s).voices i).envelope.isActive = false := by
      intro i
      rw [updateLFO_inactive mf s i (hidle i)]
      exact hidle i
    have hv := renderVoices_idle mf fuel (List.finRange numVoices) (updateLFO mf s) 0 0 hidle1
    obtain ⟨hw1, hw2, hw3⟩ := writeFrame_zero buffer (bufferOffset + sample) numChannels
    obtain ⟨r, hr, hkeep, hzero⟩ := ih (sample + 1)
      { updateLFO mf s with
        outputLevelSmoother := (J.getNextValue (updateLFO mf s).outputLevelSmoother).2 }
      (writeFrame buffer (bufferOffset + sample) numChannels 0 0) hidle1
    refine ⟨r, ?_, ?_, ?_⟩
    · unfold renderSamples
      simp only [hv, zero_mul]
      exact hr
    · intro c p
      rcases hkeep c p with h | h
      · exact Or.inl h
      · rcases hw1 c p with h2 | h2
        · exact Or.inl (h.trans h2)
        · exact Or.inr (h.trans h2)
    · intro k hk
      cases k with
      | zero =>
        simp only [Nat.cast_zero, add_zero]
        constructor
        · rcases hkeep 0 (bufferOffset + sample) with h | h
          · exact h
          · exact h.trans hw2
        · intro hch
          rcases hkeep 1 (bufferOffset + sample) with h | h
          · exact h
          · exact h.trans (hw3 hch)
      | succ k =>
        have hpos : bufferOffset + (sample + ((k + 1 : Nat) : Int))
            = bufferOffset + (sample + 1 + (k : Int)) := by
          push_cast
          ring
        rw [hpos]
        exact hzero k (Nat.lt_of_succ_lt_succ hk)

/-- When `render` returns, each voice is the end-of-block cleanup of some voice. -/
theorem render_cleanup (mf : MathFns F) (fuel : Nat) (s : Synth F J) (buffer : AudioBuffer F)
    (bufferOffset sampleCount numChannels : Int) (r : Synth F J × AudioBuffer F)
    (hr : render mf fuel s buffer bufferOffset sampleCount numChannels = some r)
    (i : Fin numVoices) :
    ∃ voice : Voice F J, r.1.voices i = renderCleanupVoice voice
      ∧ ((s.voices i).envelope.isActive = false → voice = s.voices i) := by
  unfold render at hr
  simp only at hr
  split at hr
  · exact absurd hr (by simp)
  · rename_i r1 hs
    simp only [Option.some.injEq] at hr
    rw [← hr]
    refine ⟨r1.1.voices i, by simp only [forEachVoice_finRange], fun hi => ?_⟩
    have hp := (renderPrepare_frame (List.finRange numVoices) s).2 i hi
    rw [renderSamples_inactive mf fuel _ _ _ _ _ _ _ hs i (by rw [hp]; exact hi), hp]

/-- With no active voice `render` returns, whatever the fuel, and writes 0 to every frame it
writes. -/
theorem render_idle (mf : MathFns F) (fuel : Nat) (s : Synth F J) (buffer : AudioBuffer F)
    (bufferOffset sampleCount numChannels : Int)
    (hidle : ∀ i, (s.voices i).envelope.isActive = false) :
    ∃ r, render mf fuel s buffer bufferOffset sampleCount numChannels = some r
      ∧ ∀ k : Int, 0 ≤ k → k < sampleCount →
          r.2 0 (bufferOffset + k) = 0 ∧ (numChannels > 1 → r.2 1 (bufferOffset + k) = 0) := by
  have hidle1 : ∀ i,
      ((renderPrepare (List.finRange numVoices) s).voices i).envelope.isActive = false := by
    intro i
    rw [(renderPrepare_frame _ s).2 i (hidle i)]
    exact hidle i
  obtain ⟨r, hr, _, hzero⟩ := renderSamples_idle mf fuel bufferOffset numChannels
    sampleCount.toNat 0 _ buffer hidle1
  refine ⟨_, by unfold render; simp only [hr]; rfl, ?_⟩
  intro k hk0 hk
  have h := hzero k.toNat (by omega)
  rw [Int.toNat_of_nonneg hk0, zero_add] at h
  exact h

end RenderProofs
end Synth

/-! ## Proofs: rendering -/

namespace Synth
section RenderClaims
variable {F : Type} [LinearOrderedField F] {J : Juce F}

/-- A cleared envelope is not active. -/
theorem reset_not_active (e : Envelope F) : e.reset.isActive = false := by
  simp only [Envelope.reset, Envelope.isActive, SILENCE, decide_eq_false_iff_not, not_lt,
    gt_iff_lt]
  norm_num

/-- The end-of-block cleanup of an inactive voice clears its envelope and resets its filter. -/
theorem renderCleanupVoice_inactive (voice : Voice F J)
    (h : voice.envelope.isActive = false) :
    renderCleanupVoice voice
      = { voice with envelope := voice.envelope.reset, filter := J.filterReset voice.filter } := by
  unfold renderCleanupVoice
  rw [if_pos (by rw [h]; rfl)]

/-- The end-of-block cleanup leaves an active voice as it is. -/
theorem renderCleanupVoice_active (voice : Voice F J) (h : voice.envelope.isActive = true) :
    renderCleanupVoice voice = voice := by
  unfold renderCleanupVoice
  rw [if_neg (by rw [h]; decide)]

/-- Every voice is inactive after `Synth::reset`. -/
theorem reset_voices_inactive (s : Synth F J) (i : Fin numVoices) :
    ((reset s).voices i).envelope.isActive = false := by
  show ((forEachVoice Voice.reset (List.finRange numVoices) s.voices) i).envelope.isActive = false
  rw [forEachVoice_finRange]
  exact reset_not_active _

/-- Every voice of `idleSynth` is inactive. -/
theorem idleSynth_inactive (i : Fin numVoices) :
    ((idleSynth ℚ).voices i).envelope.isActive = false :=
  reset_not_active _

/-- C12: after `reset()` no voice is active; and whenever no voice's amplitude envelope is
active, `render()` returns (whatever the sample count, channel count, output-level smoother and
loop fuel), writes 0 to every frame it writes, on channel 0 and, when there is more than one
channel, on channel 1, and leaves every voice inactive. -/
theorem render_silent_when_idle (mf : MathFns F) (fuel : Nat) (s : Synth F J)
    (buffer : AudioBuffer F) (bufferOffset sampleCount numChannels : Int) :
    (∀ i, ((reset s).voices i).envelope.isActive = false)
      ∧ ((∀ i, (s.voices i).envelope.isActive = false) →
        ∃ r, render mf fuel s buffer bufferOffset sampleCount numChannels = some r
          ∧ (∀ k : Int, 0 ≤ k → k < sampleCount →
              r.2 0 (bufferOffset + k) = 0
              ∧ (numChannels > 1 → r.2 1 (bufferOffset + k) = 0))
          ∧ ∀ i, (r.1.voices i).envelope.isActive = false) := by
  refine ⟨reset_voices_inactive s, fun hidle => ?_⟩
  obtain ⟨r, hr, hzero⟩ := render_idle mf fuel s buffer bufferOffset sampleCount numChannels hidle
  refine ⟨r, hr, hzero, fun i => ?_⟩
  obtain ⟨voice, hv, hsame⟩ := render_cleanup mf fuel s buffer bufferOffset sampleCount
    numChannels r hr i
  rw [hv, hsame (hidle i), renderCleanupVoice_inactive _ (hidle i)]
  exact reset_not_active _

/-- C12 at `idleSynth` and at `fullSynth` after `reset()`: a stereo block of 64 samples over a
buffer of ones has 0 at frame 10 of both channels. -/
theorem render_silent_when_idle_witness :
    (∃ r, render (exampleMath ℚ) 0 (idleSynth ℚ) (onesBuffer ℚ) 0 64 2 = some r
        ∧ r.2 0 10 = 0 ∧ r.2 1 10 = 0)
      ∧ ∃ r, render (exampleMath ℚ) 0 (reset (fullSynth ℚ)) (onesBuffer ℚ) 0 64 2 = some r
        ∧ r.2 0 10 = 0 ∧ r.2 1 10 = 0 := by
  constructor
  · obtain ⟨r, hr, hzero, _⟩ :=
      (render_silent_when_idle (exampleMath ℚ) 0 (idleSynth ℚ) (onesBuffer ℚ) 0 64 2).2
        idleSynth_inactive
    have h := hzero 10 (by decide) (by decide)
    exact ⟨r, hr, by simpa using h.1, by simpa using h.2 (by decide)⟩
  · obtain ⟨r, hr, hzero, _⟩ :=
      (render_silent_when_idle (exampleMath ℚ) 0 (reset (fullSynth ℚ)) (onesBuffer ℚ) 0 64 2).2
        (reset_voices_inactive (fullSynth ℚ))
    have h := hzero 10 (by decide) (by decide)
    exact ⟨r, hr, by simpa using h.1, by simpa using h.2 (by decide)⟩

/-- C13 (as stated, refuted): in `idleSynth` every voice has died away; `render()` of a stereo
block of 64 samples returns and leaves voice 0 inactive, with oscillator A still at phase 1/4
and amplitude 1/10, not cleared. -/
theorem render_keeps_oscillators :
    ∃ r, render (exampleMath ℚ) 0 (idleSynth ℚ) (onesBuffer ℚ) 0 64 2 = some r
      ∧ (r.1.voices 0).envelope.isActive = false
      ∧ (r.1.voices 0).oscillatorA.phase = 1 / 4
      ∧ (r.1.voices 0).oscillatorA.phase ≠ 0
      ∧ (r.1.voices 0).oscillatorA.amplitude ≠ 0 := by
  obtain ⟨r, hr, _⟩ := render_idle (exampleMath ℚ) 0 (idleSynth ℚ) (onesBuffer ℚ) 0 64 2
    idleSynth_inactive
  obtain ⟨voice, hv, hsame⟩ := render_cleanup (exampleMath ℚ) 0 (idleSynth ℚ) (onesBuffer ℚ)
    0 64 2 r hr 0
  have hvoice : r.1.voices 0
      = { (idleSynth ℚ).voices 0 with
          envelope := ((idleSynth ℚ).voices 0).envelope.reset
          filter := (stubJuce ℚ).filterReset ((idleSynth ℚ).voices 0).filter } := by
    rw [hv, hsame (idleSynth_inactive 0), renderCleanupVoice_inactive _ (idleSynth_inactive 0)]
  refine ⟨r, hr, ?_, ?_, ?_, ?_⟩
  · rw [hvoice]
    exact reset_not_active _
  · rw [hvoice]
    rfl
  · rw [hvoice]
    show (1 / 4 : ℚ) ≠ 0
    norm_num
  · rw [hvoice]
    show (1 / 10 : ℚ) ≠ 0
    norm_num

/-- C13 (amended): when `render()` returns, every voice whose amplitude envelope is not active
has that envelope cleared (level, target and coefficient 0) and its filter reset; `render()`
does not clear oscillators: a voice that was inactive when `render()` was called comes out as
it went in but for the cleared envelope and the reset filter. -/
theorem render_clears_inactive (mf : MathFns F) (fuel : Nat) (s : Synth F J)
    (buffer : AudioBuffer F) (bufferOffset sampleCount numChannels : Int)
    (r : Synth F J × AudioBuffer F)
    (hr : render mf fuel s buffer bufferOffset sampleCount numChannels = some r) :
    (∀ i, (r.1.voices i).envelope.isActive = false →
        (r.1.voices i).envelope.level = 0 ∧ (r.1.voices i).envelope.target = 0
        ∧ (r.1.voices i).envelope.a = 0
        ∧ ∃ f, (r.1.voices i).filter = J.filterReset f)
      ∧ ∀ i, (s.voices i).envelope.isActive = false →
          r.1.voices i
            = { s.voices i with
                envelope := (s.voices i).envelope.reset
                filter := J.filterReset (s.voices i).filter } := by
  constructor
  · intro i hi
    obtain ⟨voice, hv, _⟩ := render_cleanup mf fuel s buffer bufferOffset sampleCount
      numChannels r hr i
    rw [hv] at hi ⊢
    cases hact : voice.envelope.isActive with
    | false =>
      rw [renderCleanupVoice_inactive voice hact]
      exact ⟨rfl, rfl, rfl, _, rfl⟩
    | true =>
      rw [renderCleanupVoice_active voice hact, hact] at hi
      exact absurd hi (by decide)
  · intro i hi
    obtain ⟨voice, hv, hsame⟩ := render_cleanup mf fuel s buffer bufferOffset sampleCount
      numChannels r hr i
    rw [hv, hsame hi, renderCleanupVoice_inactive _ hi]

/-- C13 (amended) at `idleSynth`: `render()` of a stereo block of 64 samples returns, and voice
3 comes out inactive with level 0 and its oscillator B as before. -/
theorem render_clears_inactive_witness :
    ∃ r, render (exampleMath ℚ) 0 (idleSynth ℚ) (onesBuffer ℚ) 0 64 2 = some r
      ∧ (r.1.voices 3).envelope.level = 0
      ∧ (r.1.voices 3).oscillatorB = ((idleSynth ℚ).voices 3).oscillatorB := by
  obtain ⟨r, hr, _⟩ := render_idle (exampleMath ℚ) 0 (idleSynth ℚ) (onesBuffer ℚ) 0 64 2
    idleSynth_inactive
  have h := render_clears_inactive (exampleMath ℚ) 0 (idleSynth ℚ) (onesBuffer ℚ) 0 64 2 r hr
  have h3 := h.2 3 (idleSynth_inactive 3)
  exact ⟨r, hr, by rw [h3]; rfl, by rw [h3]⟩

end RenderClaims
end Synth

end SubSynth
